import Mathlib

/-!
Verification development for the KUDataFlowApp merge/transform engine.

The engine merges two per-district election datasets (round 13 and round 23)
keyed by JIS municipal code, via three execution strategies
(`transformPattern1/2/3`), shared arithmetic and relational primitives
(`computeTurnout`, `computeRelativeShare`, `round`, `joinByJisCode`,
`groupBy`) and a per-run instrumentation accumulator (`DetailedTimer`).

Embedding conventions:
* JavaScript numbers are modelled as exact rationals `ℚ`; `Math.round` is
  modelled as `⌊x + 1/2⌋` (round half toward plus infinity, JS semantics).
* A JavaScript object / `Map` used as a string-keyed record is modelled as an
  association list `Assoc α := List (String × α)` in insertion order;
  assignment (`jsSet`) overwrites in place, reading (`jsGet`) takes the first
  match, `new Set [...]` is `uniqueList` (first-seen order, deduplicated).
* CSV loading and persistence are excluded collaborators: the transforms take
  the input contract directly (`LoadResult`: parsed rows plus the discovered
  party-name list), and the `sqlExplanation` documentation strings are
  omitted from `TransformResult`.
* `console.warn` emissions are modelled by separate `...Warns` predicates
  giving the exact condition under which the source emits the warning.
* Wall-clock reads (`performance.now()`) are modelled by explicit `now`
  arguments threaded to the `DetailedTimer` operations.
-/

namespace KUDataFlow

/-- Association list modelling a JS string-keyed object or `Map`. -/
abbrev Assoc (α : Type) := List (String × α)

/-- Read a key from a JS object/`Map`: first matching entry (keys are unique
by construction of `jsSet`, so this is the entry for the key). -/
def jsGet {α : Type} : Assoc α → String → Option α
  | [], _ => none
  | (k', v) :: rest, k => if k' = k then some v else jsGet rest k

/-- Assign a key in a JS object/`Map`: overwrite in place if the key exists,
otherwise append at the end (JS insertion-order semantics). -/
def jsSet {α : Type} : Assoc α → String → α → Assoc α
  | [], k, v => [(k, v)]
  | (k', v') :: rest, k, v =>
      if k' = k then (k', v) :: rest else (k', v') :: jsSet rest k v

/-- `Array.from (new Set xs)`: deduplicate keeping the first occurrence,
in insertion order. -/
def uniqueList (xs : List String) : List String :=
  xs.foldl (fun acc x => if x ∈ acc then acc else acc ++ [x]) []

/-- `Math.round` on a JS number: round half toward plus infinity
(`Rat.floor` keeps the definition kernel-computable). -/
def jsMathRound (x : ℚ) : ℤ := (x + 1/2).floor

theorem jsMathRound_eq_floor (x : ℚ) : jsMathRound x = ⌊x + 1/2⌋ := by
  rw [jsMathRound, Rat.floor_def', Rat.floor_def]

/-- `round(value, decimals)` from `lib/transform/common.ts`:
scale by `10^decimals`, `Math.round`, divide back. -/
def round (value : ℚ) (decimals : ℕ) : ℚ :=
  (jsMathRound (value * 10 ^ decimals) : ℚ) / 10 ^ decimals

/-- `computeTurnout(ballots, electorate)` from `common.ts`: zero-guarded
rounded ratio. -/
def computeTurnout (ballots electorate : ℚ) : ℚ :=
  if electorate = 0 then 0 else round (ballots / electorate) 4

/-- The condition under which `computeTurnout` emits its `console.warn`
division-by-zero warning. -/
def computeTurnoutWarns (electorate : ℚ) : Bool :=
  electorate = 0

/-- `computeRelativeShare(votes, validVotes)` from `common.ts`: zero-guarded
rounded ratio. -/
def computeRelativeShare (votes validVotes : ℚ) : ℚ :=
  if validVotes = 0 then 0 else round (votes / validVotes) 4

/-- The condition under which `computeRelativeShare` emits its `console.warn`
division-by-zero warning. -/
def computeRelativeShareWarns (validVotes : ℚ) : Bool :=
  validVotes = 0

/-- `makePartyColumn(party, electionNo)` from `common.ts`. -/
def makePartyColumn (party : String) (electionNo : ℕ) : String :=
  party ++ "_" ++ Nat.repr electionNo

/-- `joinByJisCode(left, right, merger)` from `common.ts`: build a `Map` of
`right` by key, then for each `left` element with a match push
`merger l r`.  The TypeScript source fixes both key functions to the
`.jisCode` field of the generic row types; here they are explicit
parameters so one definition serves every instantiation. -/
def joinByJisCode {α β γ : Type} (left : List α) (right : List β)
    (keyL : α → String) (keyR : β → String) (merger : α → β → γ) : List γ :=
  let rightMap := right.foldl (fun m row => jsSet m (keyR row) row) []
  left.filterMap fun leftRow =>
    (jsGet rightMap (keyL leftRow)).map fun rightRow => merger leftRow rightRow

/-- `groupBy(array, keyFn)` from `common.ts`: a `Map` from key to the list of
items with that key, keys in first-seen order, items in input order.  The
body mirrors the source: if the key is absent, `set` an empty group (at the
end), then `push` the item onto the key's group. -/
def groupBy {α : Type} (array : List α) (keyFn : α → String) : Assoc (List α) :=
  array.foldl
    (fun map item =>
      let map' := if (jsGet map (keyFn item)).isSome then map
        else map ++ [(keyFn item, [])]
      jsSet map' (keyFn item) ((jsGet map' (keyFn item)).getD [] ++ [item]))
    []

/-- A cell value of an output record: JS `string | number`. -/
inductive Value : Type
  | str (s : String)
  | num (q : ℚ)
deriving DecidableEq, Repr

/-- One aggregated source row (`ElectionRow` from `lib/csv/loader.ts`):
district metadata, the three counts and the party → votes record. -/
structure ElectionRow where
  prefCode : String
  prefName : String
  jisCode : String
  cityName : String
  electorate : ℚ
  ballots : ℚ
  validVotes : ℚ
  parties : Assoc ℚ
deriving DecidableEq, Repr

/-- The input contract per round (`LoadResult` from `loader.ts`, without the
redundant `header` copy of `partyNames`): parsed rows plus the discovered
party-name list. -/
structure LoadResult where
  rows : List ElectionRow
  partyNames : List String
deriving DecidableEq, Repr

/-- The output contract of a topology (`TransformResult`): the merged
records and the ordered header.  The `sqlExplanation` documentation string
of the source is omitted (documentation-as-data, out of scope). -/
structure TransformResult where
  rows : List (Assoc Value)
  header : List String
deriving DecidableEq, Repr

/-- The six fixed metadata/turnout columns shared by all three topologies. -/
def metaColumns : List String :=
  ["pref_code", "pref_name", "jis_code", "city_name", "turnout_13", "turnout_23"]

/-- The shared header layout: metadata columns, then for every party of the
union of the two discovered lists its round-13 and round-23 columns. -/
def mkHeader (partyNames13 partyNames23 : List String) : List String :=
  metaColumns ++
    (uniqueList (partyNames13 ++ partyNames23)).flatMap fun party =>
      [makePartyColumn party 13, makePartyColumn party 23]

/-! ### Topology A — `transformPattern1` (`lib/transform/pattern1.ts`) -/

/-- Per-key record of one processed round (`ProcessedElection`). -/
structure ProcessedElection where
  prefCode : String
  prefName : String
  jisCode : String
  cityName : String
  turnout : ℚ
  partyShares : Assoc ℚ
deriving DecidableEq, Repr

/-- `processElection(rows, electionNo, partyNames)`: compute turnout and the
share of every discovered party (missing on the row counts as 0 votes). -/
def processElection (rows : List ElectionRow) (electionNo : ℕ)
    (partyNames : List String) : List ProcessedElection :=
  let _ := electionNo
  rows.map fun row =>
    { prefCode := row.prefCode
      prefName := row.prefName
      jisCode := row.jisCode
      cityName := row.cityName
      turnout := computeTurnout row.ballots row.electorate
      partyShares :=
        partyNames.foldl
          (fun m party =>
            jsSet m party
              (computeRelativeShare ((jsGet row.parties party).getD 0) row.validVotes))
          [] }

/-- The merge function of `transformPattern1`'s final join: metadata from the
round-13 record, both turnouts, then each round's share entries. -/
def pattern1Merge (row13 row23 : ProcessedElection) : Assoc Value :=
  let base : Assoc Value :=
    [("pref_code", .str row13.prefCode), ("pref_name", .str row13.prefName),
     ("jis_code", .str row13.jisCode), ("city_name", .str row13.cityName),
     ("turnout_13", .num row13.turnout), ("turnout_23", .num row23.turnout)]
  let base :=
    row13.partyShares.foldl
      (fun m ps => jsSet m (makePartyColumn ps.1 13) (.num ps.2)) base
  row23.partyShares.foldl
    (fun m ps => jsSet m (makePartyColumn ps.1 23) (.num ps.2)) base

/-- `transformPattern1(csv13Path, csv23Path)` with CSV loading factored out:
process each round independently, then join on JIS code. -/
def transformPattern1 (data13 data23 : LoadResult) : TransformResult :=
  let processed13 := processElection data13.rows 13 data13.partyNames
  let processed23 := processElection data23.rows 23 data23.partyNames
  let joined :=
    joinByJisCode processed13 processed23 (·.jisCode) (·.jisCode) pattern1Merge
  { rows := joined, header := mkHeader data13.partyNames data23.partyNames }

/-! ### Topology B — `transformPattern2` (`lib/transform/pattern2.ts`) -/

/-- `NormalizedRow` from `common.ts`: a source row tagged with its round. -/
structure NormalizedRow extends ElectionRow where
  electionNo : ℕ
deriving DecidableEq, Repr

/-- `normalizeRow(raw, electionNo)` from `common.ts`. -/
def normalizeRow (raw : ElectionRow) (electionNo : ℕ) : NormalizedRow :=
  { raw with electionNo := electionNo }

/-- `ComputedRow` of `transformPattern2`: a tagged row with its turnout and
the shares of the parties present on that row. -/
structure ComputedRow extends NormalizedRow where
  turnout : ℚ
  partyShares : Assoc ℚ
deriving DecidableEq, Repr

/-- The share computation of `transformPattern2` step 3: one pass over the
concatenated sequence, shares from the row's own party entries. -/
def pattern2Compute (row : NormalizedRow) : ComputedRow :=
  { row with
    turnout := computeTurnout row.ballots row.electorate
    partyShares :=
      row.parties.foldl
        (fun m pv => jsSet m pv.1 (computeRelativeShare pv.2 row.validVotes)) [] }

/-- The pivot of one group in `transformPattern2` step 4: metadata from the
round-13 member, then for every union party both round columns, absent
shares contributing 0. -/
def pattern2Pivot (allParties : List String) (jisCode : String)
    (row13 row23 : ComputedRow) : Assoc Value :=
  let base : Assoc Value :=
    [("pref_code", .str row13.prefCode), ("pref_name", .str row13.prefName),
     ("jis_code", .str jisCode), ("city_name", .str row13.cityName),
     ("turnout_13", .num row13.turnout), ("turnout_23", .num row23.turnout)]
  allParties.foldl
    (fun m party =>
      jsSet
        (jsSet m (makePartyColumn party 13)
          (.num ((jsGet row13.partyShares party).getD 0)))
        (makePartyColumn party 23)
        (.num ((jsGet row23.partyShares party).getD 0)))
    base

/-- `transformPattern2(csv13Path, csv23Path)` with CSV loading factored out:
tag and concatenate both rounds, compute once over the union, group by JIS
code and pivot; groups lacking one of the two tags are skipped. -/
def transformPattern2 (data13 data23 : LoadResult) : TransformResult :=
  let normalized13 := data13.rows.map fun row => normalizeRow row 13
  let normalized23 := data23.rows.map fun row => normalizeRow row 23
  let unionAll := normalized13 ++ normalized23
  let computed := unionAll.map pattern2Compute
  let grouped := groupBy computed (fun row => row.jisCode)
  let allParties := uniqueList (data13.partyNames ++ data23.partyNames)
  let pivoted :=
    grouped.filterMap fun g =>
      match g.2.find? (fun r => r.electionNo == 13),
            g.2.find? (fun r => r.electionNo == 23) with
      | some row13, some row23 => some (pattern2Pivot allParties g.1 row13 row23)
      | _, _ => none
  { rows := pivoted, header := mkHeader data13.partyNames data23.partyNames }

/-! ### Topology C — `transformPattern3` (`lib/transform/pattern3.ts`,
in-memory variant) -/

/-- `BaseTable`: one row per input row with metadata and turnout. -/
structure BaseTable where
  jisCode : String
  prefCode : String
  prefName : String
  cityName : String
  turnout : ℚ
deriving DecidableEq, Repr

/-- `createBaseTable(rows, electionNo)`: a plain `map`, one base row per
input row (no deduplication of JIS codes). -/
def createBaseTable (rows : List ElectionRow) (electionNo : ℕ) : List BaseTable :=
  let _ := electionNo
  rows.map fun row =>
    { jisCode := row.jisCode
      prefCode := row.prefCode
      prefName := row.prefName
      cityName := row.cityName
      turnout := computeTurnout row.ballots row.electorate }

/-- `PartyTable`: one row per input row with the party → share record. -/
structure PartyTable where
  jisCode : String
  partyShares : Assoc ℚ
deriving DecidableEq, Repr

/-- `createPartyTable(rows, electionNo, partyNames)`: shares of every
discovered party per input row (missing on the row counts as 0 votes). -/
def createPartyTable (rows : List ElectionRow) (electionNo : ℕ)
    (partyNames : List String) : List PartyTable :=
  let _ := electionNo
  rows.map fun row =>
    { jisCode := row.jisCode
      partyShares :=
        partyNames.foldl
          (fun m party =>
            jsSet m party
              (computeRelativeShare ((jsGet row.parties party).getD 0) row.validVotes))
          [] }

/-- `IntermediateTable`: base and party tables joined per round. -/
structure IntermediateTable where
  jisCode : String
  prefCode : String
  prefName : String
  cityName : String
  turnout : ℚ
  partyShares : Assoc ℚ
deriving DecidableEq, Repr

/-- `joinBaseAndParty(base, party, electionNo)`: join the two per-round
tables on JIS code (`Map`-backed, last write wins on duplicate keys). -/
def joinBaseAndParty (base : List BaseTable) (party : List PartyTable)
    (electionNo : ℕ) : List IntermediateTable :=
  let _ := electionNo
  joinByJisCode base party (·.jisCode) (·.jisCode) fun b p =>
    { jisCode := b.jisCode
      prefCode := b.prefCode
      prefName := b.prefName
      cityName := b.cityName
      turnout := b.turnout
      partyShares := p.partyShares }

/-- The merge function of `transformPattern3`'s final join; its body is the
same record construction as `pattern1Merge`. -/
def pattern3Merge (row13 row23 : IntermediateTable) : Assoc Value :=
  let base : Assoc Value :=
    [("pref_code", .str row13.prefCode), ("pref_name", .str row13.prefName),
     ("jis_code", .str row13.jisCode), ("city_name", .str row13.cityName),
     ("turnout_13", .num row13.turnout), ("turnout_23", .num row23.turnout)]
  let base :=
    row13.partyShares.foldl
      (fun m ps => jsSet m (makePartyColumn ps.1 13) (.num ps.2)) base
  row23.partyShares.foldl
    (fun m ps => jsSet m (makePartyColumn ps.1 23) (.num ps.2)) base

/-- `transformPattern3(csv13Path, csv23Path)` with CSV loading factored out:
per round build base and party tables, join them, then join the two
intermediate tables on JIS code. -/
def transformPattern3 (data13 data23 : LoadResult) : TransformResult :=
  let base13 := createBaseTable data13.rows 13
  let party13 := createPartyTable data13.rows 13 data13.partyNames
  let intermediate13 := joinBaseAndParty base13 party13 13
  let base23 := createBaseTable data23.rows 23
  let party23 := createPartyTable data23.rows 23 data23.partyNames
  let intermediate23 := joinBaseAndParty base23 party23 23
  let final :=
    joinByJisCode intermediate13 intermediate23 (·.jisCode) (·.jisCode) pattern3Merge
  { rows := final, header := mkHeader data13.partyNames data23.partyNames }

/-! ### Arithmetic evaluation helpers -/

theorem jsMathRound_eq_of (x : ℚ) (n : ℤ) (h1 : (n : ℚ) ≤ x + 1/2)
    (h2 : x + 1/2 < n + 1) : jsMathRound x = n := by
  rw [jsMathRound_eq_floor]
  exact Int.floor_eq_iff.mpr ⟨h1, by exact_mod_cast h2⟩

theorem round_eq_of (value : ℚ) (decimals : ℕ) (n : ℤ)
    (h1 : (n : ℚ) ≤ value * 10 ^ decimals + 1/2)
    (h2 : value * 10 ^ decimals + 1/2 < n + 1) :
    round value decimals = (n : ℚ) / 10 ^ decimals := by
  rw [round, jsMathRound_eq_of _ n h1 h2]

theorem computeTurnout_eq_of (ballots electorate : ℚ) (n : ℤ)
    (h0 : electorate ≠ 0)
    (h1 : (n : ℚ) ≤ ballots / electorate * 10 ^ 4 + 1/2)
    (h2 : ballots / electorate * 10 ^ 4 + 1/2 < n + 1) :
    computeTurnout ballots electorate = (n : ℚ) / 10 ^ 4 := by
  rw [computeTurnout, if_neg h0, round_eq_of _ _ n h1 h2]

theorem computeRelativeShare_eq_of (votes validVotes : ℚ) (n : ℤ)
    (h0 : validVotes ≠ 0)
    (h1 : (n : ℚ) ≤ votes / validVotes * 10 ^ 4 + 1/2)
    (h2 : votes / validVotes * 10 ^ 4 + 1/2 < n + 1) :
    computeRelativeShare votes validVotes = (n : ℚ) / 10 ^ 4 := by
  rw [computeRelativeShare, if_neg h0, round_eq_of _ _ n h1 h2]

theorem computeRelativeShare_zero_votes (validVotes : ℚ) :
    computeRelativeShare 0 validVotes = 0 := by
  rcases eq_or_ne validVotes 0 with h | h
  · simp [computeRelativeShare, h]
  · rw [computeRelativeShare_eq_of 0 validVotes 0 h (by norm_num) (by norm_num)]
    norm_num

/-! ### String-key facts

Column names are built by string concatenation (`makePartyColumn`), so the
distinctness facts the record lemmas need are proved once here. -/

theorem string_ext {s t : String} (h : s.data = t.data) : s = t := by
  cases s; cases t; exact congrArg String.mk h

theorem string_append_inj {s t u v : String} (h : s ++ t = u ++ v)
    (hl : t.length = v.length) : s = u ∧ t = v := by
  have hd : s.data ++ t.data = u.data ++ v.data := by
    rw [← String.data_append, ← String.data_append, h]
  obtain ⟨h1, h2⟩ := List.append_inj' hd hl
  exact ⟨string_ext h1, string_ext h2⟩

theorem string_append_ne {s t u v : String} (hl : t.length = v.length)
    (hst : t ≠ v) : s ++ t ≠ u ++ v :=
  fun h => hst (string_append_inj h hl).2

theorem string_append_right_cancel {s t u : String} (h : s ++ u = t ++ u) :
    s = t :=
  (string_append_inj h rfl).1

theorem makePartyColumn_13 (p : String) : makePartyColumn p 13 = p ++ "_13" := by
  rw [makePartyColumn, String.append_assoc]
  rfl

theorem makePartyColumn_23 (p : String) : makePartyColumn p 23 = p ++ "_23" := by
  rw [makePartyColumn, String.append_assoc]
  rfl

theorem mk13_inj {p q : String} (h : makePartyColumn p 13 = makePartyColumn q 13) :
    p = q := by
  rw [makePartyColumn_13, makePartyColumn_13] at h
  exact string_append_right_cancel h

theorem mk23_inj {p q : String} (h : makePartyColumn p 23 = makePartyColumn q 23) :
    p = q := by
  rw [makePartyColumn_23, makePartyColumn_23] at h
  exact string_append_right_cancel h

theorem mk13_ne_mk23 (p q : String) :
    makePartyColumn p 13 ≠ makePartyColumn q 23 := by
  rw [makePartyColumn_13, makePartyColumn_23]
  exact string_append_ne rfl (by decide)

theorem mk13_eq_turnout_13 {p : String} (h : makePartyColumn p 13 = "turnout_13") :
    p = "turnout" := by
  rw [makePartyColumn_13] at h
  exact string_append_right_cancel (h.trans (rfl : ("turnout_13" : String) = "turnout" ++ "_13"))

theorem mk23_eq_turnout_23 {p : String} (h : makePartyColumn p 23 = "turnout_23") :
    p = "turnout" := by
  rw [makePartyColumn_23] at h
  exact string_append_right_cancel (h.trans (rfl : ("turnout_23" : String) = "turnout" ++ "_23"))

theorem mk13_ne_meta {p : String} (hp : p ≠ "turnout") :
    ∀ c ∈ metaColumns, makePartyColumn p 13 ≠ c := by
  intro c hc
  rw [makePartyColumn_13]
  simp only [metaColumns, List.mem_cons, List.not_mem_nil, or_false] at hc
  rcases hc with rfl | rfl | rfl | rfl | rfl | rfl
  · exact string_append_ne (t := "_13") (v := "ode")
      (u := "pref_c") (by decide) (by decide)
  · exact string_append_ne (t := "_13") (v := "ame")
      (u := "pref_n") (by decide) (by decide)
  · exact string_append_ne (t := "_13") (v := "ode")
      (u := "jis_c") (by decide) (by decide)
  · exact string_append_ne (t := "_13") (v := "ame")
      (u := "city_n") (by decide) (by decide)
  · intro h
    exact hp (string_append_right_cancel
      (h.trans (rfl : ("turnout_13" : String) = "turnout" ++ "_13")))
  · exact string_append_ne (t := "_13") (v := "_23")
      (u := "turnout") (by decide) (by decide)

theorem mk23_ne_meta {p : String} (hp : p ≠ "turnout") :
    ∀ c ∈ metaColumns, makePartyColumn p 23 ≠ c := by
  intro c hc
  rw [makePartyColumn_23]
  simp only [metaColumns, List.mem_cons, List.not_mem_nil, or_false] at hc
  rcases hc with rfl | rfl | rfl | rfl | rfl | rfl
  · exact string_append_ne (t := "_23") (v := "ode")
      (u := "pref_c") (by decide) (by decide)
  · exact string_append_ne (t := "_23") (v := "ame")
      (u := "pref_n") (by decide) (by decide)
  · exact string_append_ne (t := "_23") (v := "ode")
      (u := "jis_c") (by decide) (by decide)
  · exact string_append_ne (t := "_23") (v := "ame")
      (u := "city_n") (by decide) (by decide)
  · exact string_append_ne (t := "_23") (v := "_13")
      (u := "turnout") (by decide) (by decide)
  · intro h
    exact hp (string_append_right_cancel
      (h.trans (rfl : ("turnout_23" : String) = "turnout" ++ "_23")))

/-! ### Generic facts about the JS object/`Map`/`Set` model -/

theorem jsGet_jsSet (m : Assoc α) (k : String) (v : α) (c : String) :
    jsGet (jsSet m k v) c = if k = c then some v else jsGet m c := by
  induction m with
  | nil =>
      by_cases h : k = c <;> simp [jsSet, jsGet, h]
  | cons kv rest ih =>
      obtain ⟨k', v'⟩ := kv
      by_cases h : k' = k
      · subst h
        by_cases h2 : k' = c <;> simp [jsSet, jsGet, h2]
      · by_cases h2 : k' = c
        · subst h2
          simp [jsSet, jsGet, h, Ne.symm h]
        · simp [jsSet, jsGet, h, h2, ih]

theorem jsGet_append (A B : Assoc α) (c : String) :
    jsGet (A ++ B) c = (jsGet A c).or (jsGet B c) := by
  induction A with
  | nil => simp [jsGet]
  | cons kv rest ih =>
      by_cases h : kv.1 = c
      · simp only [List.cons_append, jsGet, h, if_pos]
        rfl
      · simpa only [List.cons_append, jsGet, h, if_neg, ite_false] using ih

theorem jsSet_of_none (m : Assoc α) (k : String) (v : α)
    (h : jsGet m k = none) : jsSet m k v = m ++ [(k, v)] := by
  induction m with
  | nil => simp [jsSet]
  | cons kv rest ih =>
      obtain ⟨k', v'⟩ := kv
      rw [jsGet] at h
      by_cases hk : k' = k
      · simp [hk] at h
      · simp only [jsSet, hk, ite_false, List.cons_append, List.cons.injEq, true_and]
        exact ih (by simpa [hk] using h)

theorem foldl_jsSet_eq_append {σ : Type} (l : List σ) (key : σ → String)
    (val : σ → α) (m0 : Assoc α)
    (hfresh : ∀ s ∈ l, jsGet m0 (key s) = none)
    (hnd : (l.map key).Nodup) :
    l.foldl (fun m s => jsSet m (key s) (val s)) m0
      = m0 ++ l.map (fun s => (key s, val s)) := by
  induction l generalizing m0 with
  | nil => simp
  | cons a rest ih =>
      have h1 : jsSet m0 (key a) (val a) = m0 ++ [(key a, val a)] :=
        jsSet_of_none _ _ _ (hfresh a (List.mem_cons_self _ _))
      have hnd' := hnd
      rw [List.map_cons, List.nodup_cons] at hnd'
      rw [List.foldl_cons, h1, ih (m0 ++ [(key a, val a)])]
      · simp
      · intro s hs
        rw [jsGet_append, hfresh s (List.mem_cons_of_mem _ hs)]
        have hne : key a ≠ key s := by
          intro h
          exact hnd'.1 (h ▸ List.mem_map_of_mem key hs)
        simp [jsGet, hne]
      · exact hnd'.2

theorem foldl_jsSet2_eq_append {σ : Type} (l : List σ) (k1 k2 : σ → String)
    (v1 v2 : σ → α) (m0 : Assoc α)
    (hfresh : ∀ s ∈ l, jsGet m0 (k1 s) = none ∧ jsGet m0 (k2 s) = none)
    (hnd : (l.flatMap fun s => [k1 s, k2 s]).Nodup) :
    l.foldl (fun m s => jsSet (jsSet m (k1 s) (v1 s)) (k2 s) (v2 s)) m0
      = m0 ++ l.flatMap (fun s => [(k1 s, v1 s), (k2 s, v2 s)]) := by
  induction l generalizing m0 with
  | nil => simp
  | cons a rest ih =>
      simp only [List.flatMap_cons, List.cons_append, List.nil_append,
        List.nodup_cons, List.mem_cons, List.mem_flatMap,
        List.not_mem_nil, or_false] at hnd
      obtain ⟨hk1, hk2, hrest⟩ := hnd
      push_neg at hk1 hk2
      obtain ⟨hk12', hk1rest⟩ := hk1
      have hk2rest := hk2
      have h1 : jsSet m0 (k1 a) (v1 a) = m0 ++ [(k1 a, v1 a)] :=
        jsSet_of_none _ _ _ (hfresh a (List.mem_cons_self _ _)).1
      have h2 : jsSet (m0 ++ [(k1 a, v1 a)]) (k2 a) (v2 a)
          = m0 ++ [(k1 a, v1 a), (k2 a, v2 a)] := by
        rw [jsSet_of_none]
        · simp
        · rw [jsGet_append, (hfresh a (List.mem_cons_self _ _)).2]
          simp [jsGet, hk12']
      rw [List.foldl_cons, h1, h2,
        ih (m0 ++ [(k1 a, v1 a), (k2 a, v2 a)]) ?_ hrest]
      · simp
      · intro s hs
        have hm0 := hfresh s (List.mem_cons_of_mem _ hs)
        have hne1 : k1 a ≠ k1 s := (hk1rest s hs).1
        have hne2 : k2 a ≠ k1 s := (hk2rest s hs).1
        have hne3 : k1 a ≠ k2 s := (hk1rest s hs).2
        have hne4 : k2 a ≠ k2 s := (hk2rest s hs).2
        constructor
        · rw [jsGet_append, hm0.1]
          simp [jsGet, hne1, hne2]
        · rw [jsGet_append, hm0.2]
          simp [jsGet, hne3, hne4]

theorem jsGet_map_of_forall_ne {σ : Type} (l : List σ) (key : σ → String)
    (val : σ → α) (c : String) (h : ∀ s ∈ l, key s ≠ c) :
    jsGet (l.map fun s => (key s, val s)) c = none := by
  induction l with
  | nil => rfl
  | cons a rest ih =>
      simp only [List.map_cons, jsGet, h a (List.mem_cons_self _ _), ite_false]
      exact ih fun s hs => h s (List.mem_cons_of_mem _ hs)

theorem jsGet_map_of_mem {σ : Type} (l : List σ) (key : σ → String)
    (val : σ → α) (p : σ) (hp : p ∈ l)
    (hinj : ∀ q ∈ l, key q = key p → q = p) :
    jsGet (l.map fun s => (key s, val s)) (key p) = some (val p) := by
  induction l with
  | nil => cases hp
  | cons a rest ih =>
      by_cases h : key a = key p
      · have : a = p := hinj a (List.mem_cons_self _ _) h
        subst this
        simp [jsGet, h]
      · have hp' : p ∈ rest := by
          rcases List.mem_cons.mp hp with rfl | hp'
          · exact absurd rfl h
          · exact hp'
        simp only [List.map_cons, jsGet, h, ite_false]
        exact ih hp' fun q hq => hinj q (List.mem_cons_of_mem _ hq)

/-! ### Facts about `uniqueList` (the `Set` model) -/

theorem uniqueList_mem_foldl (xs : List String) :
    ∀ (acc : List String) (a : String),
      a ∈ xs.foldl (fun acc x => if x ∈ acc then acc else acc ++ [x]) acc ↔
        a ∈ acc ∨ a ∈ xs := by
  induction xs with
  | nil => simp
  | cons x rest ih =>
      intro acc a
      rw [List.foldl_cons]
      by_cases h : x ∈ acc
      · rw [if_pos h, ih]
        constructor
        · rintro (ha | ha) <;> simp [ha]
        · rintro (ha | ha)
          · exact Or.inl ha
          · rcases List.mem_cons.mp ha with rfl | ha
            · exact Or.inl h
            · exact Or.inr ha
      · rw [if_neg h, ih]
        simp only [List.mem_append, List.mem_singleton, List.mem_cons]
        tauto

theorem mem_uniqueList (xs : List String) (a : String) :
    a ∈ uniqueList xs ↔ a ∈ xs := by
  rw [uniqueList, uniqueList_mem_foldl]
  simp

theorem uniqueList_nodup_foldl (xs : List String) :
    ∀ acc : List String, acc.Nodup →
      (xs.foldl (fun acc x => if x ∈ acc then acc else acc ++ [x]) acc).Nodup := by
  induction xs with
  | nil => exact fun acc h => h
  | cons x rest ih =>
      intro acc hacc
      rw [List.foldl_cons]
      by_cases h : x ∈ acc
      · rw [if_pos h]
        exact ih acc hacc
      · rw [if_neg h]
        exact ih _ (by simp [List.nodup_append, hacc, h])

theorem uniqueList_nodup (xs : List String) : (uniqueList xs).Nodup :=
  uniqueList_nodup_foldl xs [] List.nodup_nil

theorem uniqueList_foldl_split (xs : List String) :
    ∀ acc : List String, ∃ zs,
      xs.foldl (fun acc x => if x ∈ acc then acc else acc ++ [x]) acc = acc ++ zs
        ∧ ∀ z ∈ zs, z ∉ acc := by
  induction xs with
  | nil => exact fun acc => ⟨[], by simp⟩
  | cons x rest ih =>
      intro acc
      rw [List.foldl_cons]
      by_cases h : x ∈ acc
      · rw [if_pos h]
        exact ih acc
      · rw [if_neg h]
        obtain ⟨zs, hzs, hnotin⟩ := ih (acc ++ [x])
        refine ⟨x :: zs, by simpa using hzs, ?_⟩
        intro z hz
        rcases List.mem_cons.mp hz with rfl | hz
        · exact h
        · intro hza
          exact hnotin z hz (by simp [hza])

theorem uniqueList_foldl_of_nodup (xs : List String) :
    ∀ acc : List String, xs.Nodup → (∀ x ∈ xs, x ∉ acc) →
      xs.foldl (fun acc x => if x ∈ acc then acc else acc ++ [x]) acc = acc ++ xs := by
  induction xs with
  | nil => simp
  | cons x rest ih =>
      intro acc hnd hdisj
      rw [List.nodup_cons] at hnd
      rw [List.foldl_cons, if_neg (hdisj x (List.mem_cons_self _ _)),
        ih (acc ++ [x]) hnd.2]
      · simp
      · intro y hy
        simp only [List.mem_append, List.mem_singleton]
        rintro (hya | rfl)
        · exact hdisj y (List.mem_cons_of_mem _ hy) hya
        · exact hnd.1 hy

theorem uniqueList_of_nodup {xs : List String} (h : xs.Nodup) :
    uniqueList xs = xs := by
  rw [uniqueList, uniqueList_foldl_of_nodup xs [] h (by simp)]
  simp

theorem uniqueList_append_split (xs ys : List String) :
    ∃ zs, uniqueList (xs ++ ys) = uniqueList xs ++ zs ∧ ∀ z ∈ zs, z ∉ xs := by
  rw [uniqueList, List.foldl_append]
  obtain ⟨zs, hzs, hnotin⟩ := uniqueList_foldl_split ys (uniqueList xs)
  exact ⟨zs, hzs, fun z hz hzx =>
    hnotin z hz ((mem_uniqueList xs z).mpr hzx)⟩

/-! ### Characterization of `joinByJisCode` -/

theorem jsGet_nil (c : String) : jsGet ([] : Assoc α) c = none := rfl

theorem getLast?_cons_or (a : α) (l : List α) :
    (a :: l).getLast? = l.getLast?.or (some a) := by
  induction l generalizing a with
  | nil => rfl
  | cons b m ih =>
      rw [List.getLast?_cons_cons, ih b]
      cases h : m.getLast? with
      | none =>
          have : m = [] := List.getLast?_eq_none_iff.mp h
          subst this
          rfl
      | some x => rfl

theorem jsGet_foldl_jsSet (right : List β) (keyR : β → String) (c : String) :
    ∀ m0 : Assoc β,
      jsGet (right.foldl (fun m row => jsSet m (keyR row) row) m0) c
        = ((right.filter fun r => keyR r == c).getLast?).or (jsGet m0 c) := by
  induction right with
  | nil => simp
  | cons r rest ih =>
      intro m0
      rw [List.foldl_cons, ih]
      by_cases h : keyR r = c
      · rw [List.filter_cons_of_pos (by simpa using h), getLast?_cons_or,
          jsGet_jsSet, if_pos h, Option.or_assoc]
        rfl
      · rw [List.filter_cons_of_neg (by simpa using h), jsGet_jsSet, if_neg h]

/-- Modelled on the specification's words for `equiJoin`: build a last-write-
wins lookup of `right` by key, keep each `left` element with a match (merged),
drop the rest, in `left` order. -/
def equiJoinSpec {α β γ : Type} (left : List α) (right : List β)
    (keyL : α → String) (keyR : β → String) (merger : α → β → γ) : List γ :=
  left.filterMap fun l =>
    ((right.filter fun r => keyR r == keyL l).getLast?).map fun r => merger l r

/-- C4: `joinByJisCode` is exactly the specified equi-join: a lookup of
`right` by key in which the last element wins on duplicate keys, `merger`
applied to every matched `left` element, unmatched `left` elements dropped
(inner join), output in the iteration order of `left`. -/
theorem C4_joinByJisCode_is_lastwins_inner_join {α β γ : Type}
    (left : List α) (right : List β) (keyL : α → String) (keyR : β → String)
    (merger : α → β → γ) :
    joinByJisCode left right keyL keyR merger
      = equiJoinSpec left right keyL keyR merger := by
  unfold joinByJisCode equiJoinSpec
  simp only [jsGet_foldl_jsSet, jsGet_nil, Option.or_none]

/-! ### C5 — rounding policy -/

/-- Modelled on the specification's words: round half away from zero at
`decimals` decimal places. -/
def roundHalfAwayFromZero (value : ℚ) (decimals : ℕ) : ℚ :=
  (if value < 0 then -1 else 1) *
    ((⌊|value| * 10 ^ decimals + 1/2⌋ : ℚ) / 10 ^ decimals)

/-- C5: `round` is a pure function of its arguments (hence deterministic and
platform-independent in this model), computes by scale-multiply-round-divide,
agrees with round-half-away-from-zero on all non-negative inputs (every
derived value of the engine is such a ratio), and
`round (1/3) 4 = 0.3333`, `round (2/3) 4 = 0.6667`. -/
theorem C5_round_four_decimals :
    (∀ x : ℚ, 0 ≤ x → round x 4 = roundHalfAwayFromZero x 4)
      ∧ round (1/3) 4 = 3333/10000 ∧ round (2/3) 4 = 6667/10000 := by
  refine ⟨fun x hx => ?_, ?_, ?_⟩
  · rw [round, roundHalfAwayFromZero, if_neg (not_lt.mpr hx), abs_of_nonneg hx,
      jsMathRound_eq_floor, one_mul]
  · rw [round_eq_of (1/3) 4 3333 (by norm_num) (by norm_num)]
    norm_num
  · rw [round_eq_of (2/3) 4 6667 (by norm_num) (by norm_num)]
    norm_num

/-- Witness for C5 at the concrete input `x = 1/2`. -/
theorem C5_round_four_decimals_witness :
    round (1/2) 4 = roundHalfAwayFromZero (1/2) 4 :=
  C5_round_four_decimals.1 (1/2) (by norm_num)

/-! ### C6 — zero-denominator guard -/

/-- C6: for every numeric arguments a zero denominator yields 0 together
with the warning condition under which the source emits its `console.warn`
(the functions are total, so they never throw); in particular
`computeTurnout 100 0 = 0` and `computeRelativeShare 50 0 = 0`. -/
theorem C6_zero_denominator_guard :
    ∀ ballots votes : ℚ,
      computeTurnout ballots 0 = 0 ∧ computeRelativeShare votes 0 = 0
        ∧ computeTurnoutWarns 0 = true ∧ computeRelativeShareWarns 0 = true
        ∧ computeTurnout 100 0 = 0 ∧ computeRelativeShare 50 0 = 0 := by
  intro ballots votes
  refine ⟨?_, ?_, ?_, ?_, ?_, ?_⟩ <;>
    simp [computeTurnout, computeRelativeShare, computeTurnoutWarns,
      computeRelativeShareWarns]

/-! ### C3 — the end-to-end scenario of the specification -/

def scenarioRow13 : ElectionRow :=
  { prefCode := "28", prefName := "Hyogo", jisCode := "001", cityName := "City",
    electorate := 1000, ballots := 600, validVotes := 580,
    parties := [("P", 300), ("Q", 280)] }

def scenarioRow23 : ElectionRow :=
  { prefCode := "28", prefName := "Hyogo", jisCode := "001", cityName := "City",
    electorate := 1000, ballots := 650, validVotes := 640,
    parties := [("P", 340), ("R", 300)] }

def scenarioData13 : LoadResult := { rows := [scenarioRow13], partyNames := ["P", "Q"] }

def scenarioData23 : LoadResult := { rows := [scenarioRow23], partyNames := ["P", "R"] }

theorem turnout_600_1000 : computeTurnout 600 1000 = 6000 / 10 ^ 4 := by
  rw [computeTurnout_eq_of 600 1000 6000 (by norm_num) (by norm_num) (by norm_num)]
  norm_num

theorem turnout_650_1000 : computeTurnout 650 1000 = 6500 / 10 ^ 4 := by
  rw [computeTurnout_eq_of 650 1000 6500 (by norm_num) (by norm_num) (by norm_num)]
  norm_num

theorem share_300_580 : computeRelativeShare 300 580 = 5172 / 10 ^ 4 := by
  rw [computeRelativeShare_eq_of 300 580 5172 (by norm_num) (by norm_num) (by norm_num)]
  norm_num

theorem share_280_580 : computeRelativeShare 280 580 = 4828 / 10 ^ 4 := by
  rw [computeRelativeShare_eq_of 280 580 4828 (by norm_num) (by norm_num) (by norm_num)]
  norm_num

theorem share_340_640 : computeRelativeShare 340 640 = 5313 / 10 ^ 4 := by
  rw [computeRelativeShare_eq_of 340 640 5313 (by norm_num) (by norm_num) (by norm_num)]
  norm_num

theorem share_300_640 : computeRelativeShare 300 640 = 4688 / 10 ^ 4 := by
  rw [computeRelativeShare_eq_of 300 640 4688 (by norm_num) (by norm_num) (by norm_num)]
  norm_num

theorem mkColP13 : makePartyColumn "P" 13 = "P_13" := rfl
theorem mkColP23 : makePartyColumn "P" 23 = "P_23" := rfl
theorem mkColQ13 : makePartyColumn "Q" 13 = "Q_13" := rfl
theorem mkColQ23 : makePartyColumn "Q" 23 = "Q_23" := rfl
theorem mkColR13 : makePartyColumn "R" 13 = "R_13" := rfl
theorem mkColR23 : makePartyColumn "R" 23 = "R_23" := rfl

/-- The scenario record as Topology A emits it: the `Q_23` and `R_13`
columns are absent from the record (only the header mentions them). -/
def scenarioRecordA : Assoc Value :=
  [("pref_code", .str "28"), ("pref_name", .str "Hyogo"),
   ("jis_code", .str "001"), ("city_name", .str "City"),
   ("turnout_13", .num (6000/10^4)), ("turnout_23", .num (6500/10^4)),
   ("P_13", .num (5172/10^4)), ("Q_13", .num (4828/10^4)),
   ("P_23", .num (5313/10^4)), ("R_23", .num (4688/10^4))]

/-- The scenario record as Topology B emits it: all union categories in
both rounds, the absent ones carrying 0. -/
def scenarioRecordB : Assoc Value :=
  [("pref_code", .str "28"), ("pref_name", .str "Hyogo"),
   ("jis_code", .str "001"), ("city_name", .str "City"),
   ("turnout_13", .num (6000/10^4)), ("turnout_23", .num (6500/10^4)),
   ("P_13", .num (5172/10^4)), ("P_23", .num (5313/10^4)),
   ("Q_13", .num (4828/10^4)), ("Q_23", .num 0),
   ("R_13", .num 0), ("R_23", .num (4688/10^4))]

theorem pattern1_scenario_rows :
    (transformPattern1 scenarioData13 scenarioData23).rows = [scenarioRecordA] := by
  simp +decide [transformPattern1, scenarioData13, scenarioData23, scenarioRow13,
    scenarioRow23, processElection, pattern1Merge, joinByJisCode, jsGet, jsSet,
    mkColP13, mkColP23, mkColQ13, mkColQ23, mkColR13, mkColR23,
    turnout_600_1000, turnout_650_1000, share_300_580, share_280_580,
    share_340_640, share_300_640, scenarioRecordA]

theorem pattern2_scenario_rows :
    (transformPattern2 scenarioData13 scenarioData23).rows = [scenarioRecordB] := by
  simp +decide [transformPattern2, scenarioData13, scenarioData23, scenarioRow13,
    scenarioRow23, normalizeRow, pattern2Compute, pattern2Pivot, groupBy,
    uniqueList, jsGet, jsSet,
    mkColP13, mkColP23, mkColQ13, mkColQ23, mkColR13, mkColR23,
    turnout_600_1000, turnout_650_1000, share_300_580, share_280_580,
    share_340_640, share_300_640, scenarioRecordB]

theorem pattern3_scenario_rows :
    (transformPattern3 scenarioData13 scenarioData23).rows = [scenarioRecordA] := by
  simp +decide [transformPattern3, scenarioData13, scenarioData23, scenarioRow13,
    scenarioRow23, createBaseTable, createPartyTable, joinBaseAndParty,
    pattern3Merge, joinByJisCode, jsGet, jsSet,
    mkColP13, mkColP23, mkColQ13, mkColQ23, mkColR13, mkColR23,
    turnout_600_1000, turnout_650_1000, share_300_580, share_280_580,
    share_340_640, share_300_640, scenarioRecordA]

/-- C3 counterexample: on the specification's end-to-end input the cited
engine (`transformPattern1`) emits a record whose `Q_23` column does not
exist at all — it is not present with value 0.0000 as the claim states. -/
theorem C3_end_to_end_counterexample :
    jsGet ((transformPattern1 scenarioData13 scenarioData23).rows.headD []) "Q_23"
      = none := by
  rw [pattern1_scenario_rows]
  rfl

/-- C3 (amended): on the scenario input every topology produces exactly one
Merged Record for key "001" with turnout and share values exactly as
claimed; Topology B carries `Q_23 = 0` and `R_13 = 0` explicitly, while
Topologies A and C omit those two columns from the record instead of
carrying 0. -/
theorem C3_end_to_end_scenario :
    (transformPattern1 scenarioData13 scenarioData23).rows = [scenarioRecordA]
      ∧ (transformPattern2 scenarioData13 scenarioData23).rows = [scenarioRecordB]
      ∧ (transformPattern3 scenarioData13 scenarioData23).rows = [scenarioRecordA] :=
  ⟨pattern1_scenario_rows, pattern2_scenario_rows, pattern3_scenario_rows⟩

/-- C1 counterexample: on the C3 scenario input, Topologies A and B disagree
column-for-column — the very key sets of the emitted records differ
(`Q_23`/`R_13` are columns of B's record only). -/
theorem C1_cross_topology_counterexample :
    ((transformPattern1 scenarioData13 scenarioData23).rows.headD []).map Prod.fst
      ≠ ((transformPattern2 scenarioData13 scenarioData23).rows.headD []).map Prod.fst := by
  rw [pattern1_scenario_rows, pattern2_scenario_rows]
  decide

/-! ### Small list facts feeding the record normal forms -/

theorem jsGet_of_forall_ne (m : Assoc α) (c : String)
    (h : ∀ kv ∈ m, kv.1 ≠ c) : jsGet m c = none := by
  induction m with
  | nil => rfl
  | cons kv rest ih =>
      obtain ⟨k', v'⟩ := kv
      rw [jsGet, if_neg (h (k', v') (List.mem_cons_self _ _))]
      exact ih fun kv' h' => h kv' (List.mem_cons_of_mem _ h')

theorem jsGet_map_snd (m : Assoc β) (f : β → α) (c : String) :
    jsGet (m.map fun pv => (pv.1, f pv.2)) c = (jsGet m c).map f := by
  induction m with
  | nil => rfl
  | cons kv rest ih =>
      obtain ⟨k', v'⟩ := kv
      by_cases h : k' = c <;> simp [jsGet, h, ih]

theorem find?_all_true (l : List α) (p : α → Bool)
    (h : ∀ a ∈ l, p a = true) : l.find? p = l.head? := by
  cases l with
  | nil => rfl
  | cons a rest =>
      rw [List.find?_cons_of_pos _ (h a (List.mem_cons_self _ _)), List.head?_cons]

theorem find?_self_of_nodup (rows : List σ) (key : σ → String)
    (hnd : (rows.map key).Nodup) (a : σ) (ha : a ∈ rows) :
    rows.find? (fun r => key r == key a) = some a := by
  induction rows with
  | nil => cases ha
  | cons r rest ih =>
      rw [List.map_cons, List.nodup_cons] at hnd
      by_cases h : key r = key a
      · rcases List.mem_cons.mp ha with rfl | ha'
        · rw [List.find?_cons_of_pos _ (by simp)]
        · exact absurd (h ▸ List.mem_map_of_mem key ha') hnd.1
      · have ha' : a ∈ rest := by
          rcases List.mem_cons.mp ha with rfl | h'
          · exact absurd rfl h
          · exact h'
        rw [List.find?_cons_of_neg _ (by simp [h])]
        exact ih hnd.2 ha'

theorem filter_eq_find_of_nodup (rows : List σ) (key : σ → String)
    (hnd : (rows.map key).Nodup) (c : String) :
    rows.filter (fun r => key r == c) = (rows.find? (fun r => key r == c)).toList := by
  induction rows with
  | nil => rfl
  | cons r rest ih =>
      rw [List.map_cons, List.nodup_cons] at hnd
      by_cases h : key r = c
      · rw [List.filter_cons_of_pos (by simp [h]), List.find?_cons_of_pos _ (by simp [h])]
        have hrest : rest.filter (fun r' => key r' == c) = [] := by
          rw [List.filter_eq_nil_iff]
          intro x hx
          simp only [beq_iff_eq]
          intro hkey
          exact hnd.1 ((h.symm ▸ hkey : key x = key r) ▸ List.mem_map_of_mem key hx)
        rw [hrest]
        rfl
      · rw [List.filter_cons_of_neg (by simp [h]), List.find?_cons_of_neg _ (by simp [h])]
        exact ih hnd.2

theorem getLast?_toList (o : Option α) : o.toList.getLast? = o := by
  cases o <;> rfl

theorem filterMap_guard_eq_map_filter (l : List σ) (p : σ → Bool) (f : σ → τ) :
    (l.filterMap fun a => if p a then some (f a) else none) = (l.filter p).map f := by
  induction l with
  | nil => rfl
  | cons a rest ih =>
      by_cases h : p a <;> simp [List.filterMap_cons, List.filter_cons, h, ih]

theorem forall₂_filterMap (l : List σ) (f : σ → Option τ₁) (g : σ → Option τ₂)
    (R : τ₁ → τ₂ → Prop)
    (h : ∀ a ∈ l, (f a = none ∧ g a = none)
      ∨ ∃ x y, f a = some x ∧ g a = some y ∧ R x y) :
    List.Forall₂ R (l.filterMap f) (l.filterMap g) := by
  induction l with
  | nil => exact List.Forall₂.nil
  | cons a rest ih =>
      have ih' := ih fun a ha => h a (List.mem_cons_of_mem _ ha)
      rcases h a (List.mem_cons_self _ _) with ⟨hf, hg⟩ | ⟨x, y, hf, hg, hR⟩
      · rwa [List.filterMap_cons_none hf, List.filterMap_cons_none hg]
      · rw [List.filterMap_cons_some hf, List.filterMap_cons_some hg]
        exact List.Forall₂.cons hR ih'

theorem mk13_injective : Function.Injective fun p => makePartyColumn p 13 :=
  fun _ _ h => mk13_inj h

theorem mk23_injective : Function.Injective fun p => makePartyColumn p 23 :=
  fun _ _ h => mk23_inj h

theorem nodup_mkCol_pairs (U : List String) (hU : U.Nodup) :
    (U.flatMap fun p => [makePartyColumn p 13, makePartyColumn p 23]).Nodup := by
  induction U with
  | nil => exact List.nodup_nil
  | cons u rest ih =>
      rw [List.nodup_cons] at hU
      simp only [List.flatMap_cons, List.cons_append, List.nil_append,
        List.nodup_cons, List.mem_cons, List.mem_flatMap,
        List.not_mem_nil, or_false]
      refine ⟨?_, ?_, ih hU.2⟩
      · push_neg
        refine ⟨mk13_ne_mk23 u u, fun q hq => ⟨fun h => hU.1 (mk13_inj h ▸ hq),
          mk13_ne_mk23 u q⟩⟩
      · push_neg
        exact fun q hq => ⟨fun h => (mk13_ne_mk23 q u) h.symm,
          fun h => hU.1 (mk23_inj h ▸ hq)⟩

theorem jsGet_flatMap_pairs (U : List String) (f1 f2 : String → α) (c : String) :
    jsGet (U.flatMap fun p =>
        [(makePartyColumn p 13, f1 p), (makePartyColumn p 23, f2 p)]) c
      = (jsGet (U.map fun p => (makePartyColumn p 13, f1 p)) c).or
          (jsGet (U.map fun p => (makePartyColumn p 23, f2 p)) c) := by
  induction U with
  | nil => rfl
  | cons u rest ih =>
      simp only [List.flatMap_cons, List.cons_append, List.nil_append, List.map_cons]
      by_cases h1 : makePartyColumn u 13 = c
      · simp [jsGet, h1]
      · by_cases h2 : makePartyColumn u 23 = c
        · have hn : jsGet (rest.map fun p => (makePartyColumn p 13, f1 p)) c = none :=
            jsGet_map_of_forall_ne _ _ _ _
              (fun q _ h => (mk13_ne_mk23 q u) (h.trans h2.symm))
          simp [jsGet, h1, h2, hn]
        · simp [jsGet, h1, h2, ih]

/-! ### Normal forms of the per-row records -/

theorem joinByJisCode_eq {α β γ : Type} (left : List α) (right : List β)
    (keyL : α → String) (keyR : β → String) (merger : α → β → γ) :
    joinByJisCode left right keyL keyR merger
      = left.filterMap fun l =>
          ((right.filter fun r => keyR r == keyL l).getLast?).map fun r =>
            merger l r := by
  unfold joinByJisCode
  simp only [jsGet_foldl_jsSet, jsGet_nil, Option.or_none]

theorem lastMatch_of_nodup (right : List β) (keyR : β → String)
    (hnd : (right.map keyR).Nodup) (c : String) :
    (right.filter fun r => keyR r == c).getLast?
      = right.find? (fun r => keyR r == c) := by
  rw [filter_eq_find_of_nodup right keyR hnd c, getLast?_toList]

/-- One-row form of `processElection` (proof-side abbreviation of its `map`
body). -/
def processOne (partyNames : List String) (row : ElectionRow) : ProcessedElection :=
  { prefCode := row.prefCode
    prefName := row.prefName
    jisCode := row.jisCode
    cityName := row.cityName
    turnout := computeTurnout row.ballots row.electorate
    partyShares :=
      partyNames.foldl
        (fun m party =>
          jsSet m party
            (computeRelativeShare ((jsGet row.parties party).getD 0) row.validVotes))
        [] }

theorem processElection_eq_map (rows : List ElectionRow) (n : ℕ)
    (pn : List String) :
    processElection rows n pn = rows.map (processOne pn) := rfl

theorem processOne_jisCode (pn : List String) (row : ElectionRow) :
    (processOne pn row).jisCode = row.jisCode := rfl

theorem processOne_partyShares (pn : List String) (hnd : pn.Nodup)
    (row : ElectionRow) :
    (processOne pn row).partyShares
      = pn.map fun party =>
          (party, computeRelativeShare ((jsGet row.parties party).getD 0) row.validVotes) := by
  have h := foldl_jsSet_eq_append pn (fun p => p)
    (fun party => computeRelativeShare ((jsGet row.parties party).getD 0) row.validVotes)
    [] (fun s _ => rfl) (by simpa using hnd)
  simpa using h

theorem jsGet_metaBase_none (v1 v2 v3 v4 v5 v6 : Value) (c : String)
    (h : ∀ m ∈ metaColumns, c ≠ m) :
    jsGet [("pref_code", v1), ("pref_name", v2), ("jis_code", v3),
      ("city_name", v4), ("turnout_13", v5), ("turnout_23", v6)] c = none := by
  apply jsGet_of_forall_ne
  intro kv hkv
  simp only [List.mem_cons, List.not_mem_nil, or_false] at hkv
  rcases hkv with rfl | rfl | rfl | rfl | rfl | rfl <;>
    exact fun hc => h _ (by simp [metaColumns]) hc.symm

theorem pattern1Merge_eq (r13 r23 : ProcessedElection)
    (h13 : (r13.partyShares.map Prod.fst).Nodup)
    (h23 : (r23.partyShares.map Prod.fst).Nodup)
    (ht13 : "turnout" ∉ r13.partyShares.map Prod.fst)
    (ht23 : "turnout" ∉ r23.partyShares.map Prod.fst) :
    pattern1Merge r13 r23
      = [("pref_code", Value.str r13.prefCode), ("pref_name", Value.str r13.prefName),
          ("jis_code", Value.str r13.jisCode), ("city_name", Value.str r13.cityName),
          ("turnout_13", Value.num r13.turnout), ("turnout_23", Value.num r23.turnout)]
          ++ (r13.partyShares.map fun ps => (makePartyColumn ps.1 13, Value.num ps.2))
          ++ (r23.partyShares.map fun ps => (makePartyColumn ps.1 23, Value.num ps.2)) := by
  have hfresh1 : ∀ ps ∈ r13.partyShares,
      jsGet [("pref_code", Value.str r13.prefCode), ("pref_name", Value.str r13.prefName),
        ("jis_code", Value.str r13.jisCode), ("city_name", Value.str r13.cityName),
        ("turnout_13", Value.num r13.turnout), ("turnout_23", Value.num r23.turnout)]
        (makePartyColumn ps.1 13) = none := by
    intro ps hps
    exact jsGet_metaBase_none _ _ _ _ _ _ _
      (mk13_ne_meta fun h => ht13 (h ▸ List.mem_map_of_mem Prod.fst hps))
  have hnd1 : (r13.partyShares.map fun ps => makePartyColumn ps.1 13).Nodup := by
    have := (h13.map mk13_injective)
    simpa [List.map_map, Function.comp] using this
  have hnd2 : (r23.partyShares.map fun ps => makePartyColumn ps.1 23).Nodup := by
    have := (h23.map mk23_injective)
    simpa [List.map_map, Function.comp] using this
  rw [pattern1Merge]
  rw [foldl_jsSet_eq_append r13.partyShares (fun ps => makePartyColumn ps.1 13)
    (fun ps => Value.num ps.2) _ hfresh1 hnd1]
  rw [foldl_jsSet_eq_append r23.partyShares (fun ps => makePartyColumn ps.1 23)
    (fun ps => Value.num ps.2) _ ?_ hnd2]
  intro ps hps
  rw [jsGet_append]
  rw [jsGet_metaBase_none _ _ _ _ _ _ _
    (mk23_ne_meta fun h => ht23 (h ▸ List.mem_map_of_mem Prod.fst hps))]
  rw [jsGet_map_of_forall_ne _ _ _ _
    (fun qs _ h => mk13_ne_mk23 qs.1 ps.1 h)]
  rfl

/-! ### Well-formed inputs

These are the invariants the excluded CSV-loading collaborator guarantees
(§3 of the specification): unique district keys per round, a deduplicated
sorted discovered party list covering every party appearing on a row, and
party names that cannot collide with the fixed `turnout` columns. -/

structure WFInput (d13 d23 : LoadResult) : Prop where
  nodupKeys13 : (d13.rows.map (·.jisCode)).Nodup
  nodupKeys23 : (d23.rows.map (·.jisCode)).Nodup
  nodupNames13 : d13.partyNames.Nodup
  nodupNames23 : d23.partyNames.Nodup
  turnoutFree13 : "turnout" ∉ d13.partyNames
  turnoutFree23 : "turnout" ∉ d23.partyNames
  partiesNodup13 : ∀ r ∈ d13.rows, (r.parties.map Prod.fst).Nodup
  partiesNodup23 : ∀ r ∈ d23.rows, (r.parties.map Prod.fst).Nodup
  partiesSub13 : ∀ r ∈ d13.rows, ∀ pv ∈ r.parties, pv.1 ∈ d13.partyNames
  partiesSub23 : ∀ r ∈ d23.rows, ∀ pv ∈ r.parties, pv.1 ∈ d23.partyNames

theorem pattern1_rows_eq (d13 d23 : LoadResult)
    (hnd23 : (d23.rows.map (·.jisCode)).Nodup) :
    (transformPattern1 d13 d23).rows
      = d13.rows.filterMap fun a =>
          (d23.rows.find? fun b => b.jisCode == a.jisCode).map fun b =>
            pattern1Merge (processOne d13.partyNames a) (processOne d23.partyNames b) := by
  show joinByJisCode (processElection d13.rows 13 d13.partyNames)
      (processElection d23.rows 23 d23.partyNames) (·.jisCode) (·.jisCode)
      pattern1Merge = _
  rw [joinByJisCode_eq, processElection_eq_map, processElection_eq_map,
    List.filterMap_map]
  refine List.filterMap_congr ?_
  intro a _
  rw [Function.comp_apply, List.filter_map,
    show ((fun r : ProcessedElection => r.jisCode == (processOne d13.partyNames a).jisCode)
        ∘ processOne d23.partyNames)
      = fun b => b.jisCode == a.jisCode from rfl,
    List.getLast?_map, filter_eq_find_of_nodup d23.rows (·.jisCode) hnd23,
    getLast?_toList, Option.map_map]
  rfl

/-- One-row form of Topology C's per-round base×party join (proof-side
abbreviation). -/
def intermediateOne (partyNames : List String) (row : ElectionRow) : IntermediateTable :=
  { jisCode := row.jisCode
    prefCode := row.prefCode
    prefName := row.prefName
    cityName := row.cityName
    turnout := computeTurnout row.ballots row.electorate
    partyShares :=
      partyNames.foldl
        (fun m party =>
          jsSet m party
            (computeRelativeShare ((jsGet row.parties party).getD 0) row.validVotes))
        [] }

theorem filterMap_some_eq_map (l : List σ) (f : σ → τ) :
    (l.filterMap fun a => some (f a)) = l.map f := by
  induction l with
  | nil => rfl
  | cons a rest ih => simp [List.filterMap_cons, ih]

/-- One-row form of `createBaseTable` (proof-side abbreviation). -/
def baseOne (row : ElectionRow) : BaseTable :=
  { jisCode := row.jisCode
    prefCode := row.prefCode
    prefName := row.prefName
    cityName := row.cityName
    turnout := computeTurnout row.ballots row.electorate }

/-- One-row form of `createPartyTable` (proof-side abbreviation). -/
def partyOne (partyNames : List String) (row : ElectionRow) : PartyTable :=
  { jisCode := row.jisCode
    partyShares :=
      partyNames.foldl
        (fun m party =>
          jsSet m party
            (computeRelativeShare ((jsGet row.parties party).getD 0) row.validVotes))
        [] }

theorem createBaseTable_eq_map (rows : List ElectionRow) (n : ℕ) :
    createBaseTable rows n = rows.map baseOne := rfl

theorem createPartyTable_eq_map (rows : List ElectionRow) (n : ℕ)
    (pn : List String) :
    createPartyTable rows n pn = rows.map (partyOne pn) := rfl

theorem partyOne_jisCode (pn : List String) (row : ElectionRow) :
    (partyOne pn row).jisCode = row.jisCode := rfl

theorem joinBaseAndParty_eq (rows : List ElectionRow) (n : ℕ)
    (pn : List String) (hnd : (rows.map (·.jisCode)).Nodup) :
    joinBaseAndParty (createBaseTable rows n) (createPartyTable rows n pn) n
      = rows.map (intermediateOne pn) := by
  rw [joinBaseAndParty, createBaseTable_eq_map, createPartyTable_eq_map,
    joinByJisCode_eq, List.filterMap_map]
  have step : ∀ a ∈ rows,
      (((rows.map (partyOne pn)).filter fun p =>
          p.jisCode == (baseOne a).jisCode).getLast?.map fun p =>
        ({ jisCode := (baseOne a).jisCode
           prefCode := (baseOne a).prefCode
           prefName := (baseOne a).prefName
           cityName := (baseOne a).cityName
           turnout := (baseOne a).turnout
           partyShares := p.partyShares } : IntermediateTable))
        = some (intermediateOne pn a) := by
    intro a ha
    rw [List.filter_map, List.getLast?_map]
    have hpred : ((fun p : PartyTable => p.jisCode == (baseOne a).jisCode)
        ∘ partyOne pn) = fun r : ElectionRow => r.jisCode == a.jisCode := rfl
    rw [hpred, filter_eq_find_of_nodup rows (·.jisCode) hnd, getLast?_toList,
      find?_self_of_nodup rows (·.jisCode) hnd a ha]
    rfl
  exact (List.filterMap_congr step).trans (filterMap_some_eq_map _ _)

theorem pattern3Merge_intermediateOne (pn13 pn23 : List String)
    (a b : ElectionRow) :
    pattern3Merge (intermediateOne pn13 a) (intermediateOne pn23 b)
      = pattern1Merge (processOne pn13 a) (processOne pn23 b) := rfl

theorem pattern3_rows_eq (d13 d23 : LoadResult)
    (hnd13 : (d13.rows.map (·.jisCode)).Nodup)
    (hnd23 : (d23.rows.map (·.jisCode)).Nodup) :
    (transformPattern3 d13 d23).rows
      = d13.rows.filterMap fun a =>
          (d23.rows.find? fun b => b.jisCode == a.jisCode).map fun b =>
            pattern1Merge (processOne d13.partyNames a) (processOne d23.partyNames b) := by
  show joinByJisCode
      (joinBaseAndParty (createBaseTable d13.rows 13)
        (createPartyTable d13.rows 13 d13.partyNames) 13)
      (joinBaseAndParty (createBaseTable d23.rows 23)
        (createPartyTable d23.rows 23 d23.partyNames) 23)
      (·.jisCode) (·.jisCode) pattern3Merge = _
  rw [joinBaseAndParty_eq _ _ _ hnd13, joinBaseAndParty_eq _ _ _ hnd23,
    joinByJisCode_eq, List.filterMap_map]
  refine List.filterMap_congr ?_
  intro a _
  rw [Function.comp_apply, List.filter_map,
    show ((fun r : IntermediateTable =>
        r.jisCode == (intermediateOne d13.partyNames a).jisCode)
        ∘ intermediateOne d23.partyNames)
      = fun b => b.jisCode == a.jisCode from rfl,
    List.getLast?_map, filter_eq_find_of_nodup d23.rows (·.jisCode) hnd23,
    getLast?_toList, Option.map_map]
  rfl

/-- Under well-formed inputs, Topologies A and C produce identical row
lists. -/
theorem pattern1_rows_eq_pattern3 (d13 d23 : LoadResult)
    (h : WFInput d13 d23) :
    (transformPattern1 d13 d23).rows = (transformPattern3 d13 d23).rows := by
  rw [pattern1_rows_eq d13 d23 h.nodupKeys23,
    pattern3_rows_eq d13 d23 h.nodupKeys13 h.nodupKeys23]

/-! ### Characterization of `groupBy` -/

theorem jsSet_append_last (m : Assoc α) (k : String) (w v : α)
    (h : jsGet m k = none) : jsSet (m ++ [(k, w)]) k v = m ++ [(k, v)] := by
  induction m with
  | nil => simp [jsSet]
  | cons kv rest ih =>
      obtain ⟨k', v'⟩ := kv
      rw [jsGet] at h
      have hk : k' ≠ k := by
        intro hk
        simp [hk] at h
      simp only [List.cons_append, jsSet, hk, ite_false, List.cons.injEq, true_and]
      exact ih (by simpa [hk] using h)

theorem groupBy_step_present {α : Type} (m : Assoc (List α)) (k : String)
    (item : α) (g : List α) (h : jsGet m k = some g) :
    (let m' := if (jsGet m k).isSome then m else m ++ [(k, [])];
      jsSet m' k ((jsGet m' k).getD [] ++ [item])) = jsSet m k (g ++ [item]) := by
  simp [h]

theorem groupBy_step_absent {α : Type} (m : Assoc (List α)) (k : String)
    (item : α) (h : jsGet m k = none) :
    (let m' := if (jsGet m k).isSome then m else m ++ [(k, [])];
      jsSet m' k ((jsGet m' k).getD [] ++ [item])) = m ++ [(k, [item])] := by
  have hget : jsGet (m ++ [(k, [])]) k = some ([] : List α) := by
    rw [jsGet_append, h]
    simp [jsGet]
  simp only [h, Option.isSome_none, Bool.false_eq_true, if_false, hget,
    Option.getD_some, List.nil_append]
  exact jsSet_append_last m k [] [item] h

theorem uniqueList_append_singleton (xs : List String) (a : String) :
    uniqueList (xs ++ [a])
      = if a ∈ xs then uniqueList xs else uniqueList xs ++ [a] := by
  rw [uniqueList, List.foldl_append, List.foldl_cons, List.foldl_nil]
  show (if a ∈ uniqueList xs then uniqueList xs else uniqueList xs ++ [a]) = _
  by_cases h : a ∈ xs <;> simp [mem_uniqueList, h]

theorem jsSet_map_update (u : List String) (hu : u.Nodup) (f : String → α)
    (k : String) (v : α) (hk : k ∈ u) :
    jsSet (u.map fun q => (q, f q)) k v
      = u.map fun q => (q, if q = k then v else f q) := by
  induction u with
  | nil => cases hk
  | cons a rest ih =>
      rw [List.nodup_cons] at hu
      by_cases h : a = k
      · subst h
        have hset : jsSet ((a, f a) :: rest.map fun q => (q, f q)) a v
            = (a, v) :: rest.map fun q => (q, f q) := by
          simp [jsSet]
        rw [List.map_cons, hset, List.map_cons, if_pos rfl]
        congr 1
        refine (List.map_congr_left ?_).symm
        intro q hq
        have : q ≠ a := fun hqa => hu.1 (hqa ▸ hq)
        simp [this]
      · have hk' : k ∈ rest := by
          rcases List.mem_cons.mp hk with rfl | hk'
          · exact absurd rfl h
          · exact hk'
        simp only [List.map_cons, jsSet, h, ite_false, if_neg h,
          List.cons.injEq, true_and]
        exact ih hu.2 hk'

theorem groupBy_eq {α : Type} (items : List α) (keyFn : α → String) :
    groupBy items keyFn
      = (uniqueList (items.map keyFn)).map fun k =>
          (k, items.filter fun s => keyFn s == k) := by
  induction items using List.reverseRecOn with
  | nil => rfl
  | append_singleton l x ih =>
      have hmap : (l ++ [x]).map keyFn = l.map keyFn ++ [keyFn x] := by simp
      rw [groupBy, List.foldl_append, List.foldl_cons, List.foldl_nil,
        show List.foldl _ [] l = groupBy l keyFn from rfl, ih,
        hmap, uniqueList_append_singleton]
      by_cases hmem : keyFn x ∈ l.map keyFn
      · rw [if_pos hmem]
        have hx : keyFn x ∈ uniqueList (l.map keyFn) :=
          (mem_uniqueList _ _).mpr hmem
        have hget : jsGet
            ((uniqueList (l.map keyFn)).map fun k =>
              (k, l.filter fun s => keyFn s == k)) (keyFn x)
            = some (l.filter fun s => keyFn s == keyFn x) := by
          have := jsGet_map_of_mem (uniqueList (l.map keyFn)) (fun k => k)
            (fun k => l.filter fun s => keyFn s == k) (keyFn x) hx
            (fun q _ hq => hq)
          simpa using this
        rw [groupBy_step_present _ _ _ _ hget,
          jsSet_map_update _ (uniqueList_nodup _) _ _ _ hx]
        refine List.map_congr_left ?_
        intro k hk
        by_cases hkx : k = keyFn x
        · subst hkx
          simp [List.filter_append]
        · have : ¬(keyFn x == k) = true := by simp [Ne.symm hkx]
          simp [List.filter_append, this, hkx]
      · rw [if_neg hmem]
        have hget : jsGet
            ((uniqueList (l.map keyFn)).map fun k =>
              (k, l.filter fun s => keyFn s == k)) (keyFn x) = none := by
          refine jsGet_map_of_forall_ne _ _ _ _ ?_
          intro q hq hqx
          exact hmem (hqx ▸ (mem_uniqueList _ _).mp hq)
        rw [groupBy_step_absent _ _ _ hget, List.map_append]
        congr 1
        · refine List.map_congr_left ?_
          intro k hk
          have hkx : keyFn x ≠ k := fun h =>
            hmem (h ▸ (mem_uniqueList _ _).mp hk)
          have : ¬(keyFn x == k) = true := by simp [hkx]
          simp [List.filter_append, this]
        · have : l.filter (fun s => keyFn s == keyFn x) = [] := by
            rw [List.filter_eq_nil_iff]
            intro s hs
            simp only [beq_iff_eq]
            exact fun h => hmem (h ▸ List.mem_map_of_mem keyFn hs)
          simp [List.filter_append, this]

/-! ### Normal form of Topology B -/

theorem head?_toList (o : Option α) : o.toList.head? = o := by
  cases o <;> rfl


theorem pattern2_rows_eq (d13 d23 : LoadResult) (h : WFInput d13 d23) :
    (transformPattern2 d13 d23).rows
      = d13.rows.filterMap fun a =>
          (d23.rows.find? fun b => b.jisCode == a.jisCode).map fun b =>
            pattern2Pivot (uniqueList (d13.partyNames ++ d23.partyNames))
              a.jisCode (pattern2Compute (normalizeRow a 13))
              (pattern2Compute (normalizeRow b 23)) := by
  simp only [transformPattern2]
  have hcomp :
      ((d13.rows.map fun row => normalizeRow row 13)
          ++ d23.rows.map fun row => normalizeRow row 23).map pattern2Compute
        = d13.rows.map (fun a => pattern2Compute (normalizeRow a 13))
          ++ d23.rows.map (fun b => pattern2Compute (normalizeRow b 23)) := by
    simp only [List.map_append, List.map_map]
    rfl
  rw [hcomp, groupBy_eq]
  have hkeys :
      ((d13.rows.map fun a => pattern2Compute (normalizeRow a 13))
          ++ d23.rows.map fun b => pattern2Compute (normalizeRow b 23)).map
        (fun row => row.jisCode)
        = d13.rows.map (·.jisCode) ++ d23.rows.map (·.jisCode) := by
    simp only [List.map_append, List.map_map]
    rfl
  rw [hkeys, List.filterMap_map]
  have hgroup : ∀ k : String,
      ((d13.rows.map fun a => pattern2Compute (normalizeRow a 13))
          ++ d23.rows.map fun b => pattern2Compute (normalizeRow b 23)).filter
        (fun s => s.jisCode == k)
        = ((d13.rows.filter fun a => a.jisCode == k).map
            fun a => pattern2Compute (normalizeRow a 13))
          ++ ((d23.rows.filter fun b => b.jisCode == k).map
            fun b => pattern2Compute (normalizeRow b 23)) := by
    intro k
    rw [List.filter_append, List.filter_map, List.filter_map]
    rfl
  have hfind13 : ∀ k : String,
      (((d13.rows.filter fun a => a.jisCode == k).map
          fun a => pattern2Compute (normalizeRow a 13))
        ++ ((d23.rows.filter fun b => b.jisCode == k).map
          fun b => pattern2Compute (normalizeRow b 23))).find?
        (fun r => r.electionNo == 13)
        = ((d13.rows.find? fun a => a.jisCode == k).map
            fun a => pattern2Compute (normalizeRow a 13)) := by
    intro k
    rw [List.find?_append, List.find?_map, List.find?_map,
      show ((fun r : ComputedRow => r.electionNo == 13)
        ∘ fun b => pattern2Compute (normalizeRow b 23)) = fun _ => false from rfl,
      show ((fun r : ComputedRow => r.electionNo == 13)
        ∘ fun a => pattern2Compute (normalizeRow a 13)) = fun _ => true from rfl,
      show (List.find? (fun _ => false)
          (d23.rows.filter fun b => b.jisCode == k) : Option ElectionRow) = none
        from List.find?_eq_none.mpr (fun x _ => by simp),
      Option.map_none', Option.or_none,
      find?_all_true _ _ (fun a _ => rfl),
      filter_eq_find_of_nodup d13.rows (·.jisCode) h.nodupKeys13, head?_toList]
  have hfind23 : ∀ k : String,
      (((d13.rows.filter fun a => a.jisCode == k).map
          fun a => pattern2Compute (normalizeRow a 13))
        ++ ((d23.rows.filter fun b => b.jisCode == k).map
          fun b => pattern2Compute (normalizeRow b 23))).find?
        (fun r => r.electionNo == 23)
        = ((d23.rows.find? fun b => b.jisCode == k).map
            fun b => pattern2Compute (normalizeRow b 23)) := by
    intro k
    rw [List.find?_append, List.find?_map, List.find?_map,
      show ((fun r : ComputedRow => r.electionNo == 23)
        ∘ fun a => pattern2Compute (normalizeRow a 13)) = fun _ => false from rfl,
      show ((fun r : ComputedRow => r.electionNo == 23)
        ∘ fun b => pattern2Compute (normalizeRow b 23)) = fun _ => true from rfl,
      show (List.find? (fun _ => false)
          (d13.rows.filter fun a => a.jisCode == k) : Option ElectionRow) = none
        from List.find?_eq_none.mpr (fun x _ => by simp),
      Option.map_none', Option.none_or,
      find?_all_true _ _ (fun b _ => rfl),
      filter_eq_find_of_nodup d23.rows (·.jisCode) h.nodupKeys23, head?_toList]
  refine (List.filterMap_congr (g := fun k =>
      (d13.rows.find? fun a => a.jisCode == k).bind fun a =>
        (d23.rows.find? fun b => b.jisCode == k).map fun b =>
          pattern2Pivot (uniqueList (d13.partyNames ++ d23.partyNames)) k
            (pattern2Compute (normalizeRow a 13))
            (pattern2Compute (normalizeRow b 23))) ?_).trans ?_
  · intro k _
    simp only [Function.comp_apply, hgroup, hfind13, hfind23]
    cases d13.rows.find? fun a => a.jisCode == k with
    | none => rfl
    | some a =>
        cases d23.rows.find? fun b => b.jisCode == k with
        | none => rfl
        | some b => rfl
  · obtain ⟨zs, hzs, hznot⟩ :=
      uniqueList_append_split (d13.rows.map (·.jisCode)) (d23.rows.map (·.jisCode))
    rw [hzs, uniqueList_of_nodup h.nodupKeys13, List.filterMap_append]
    have hz : (zs.filterMap fun k =>
        (d13.rows.find? fun a => a.jisCode == k).bind fun a =>
          (d23.rows.find? fun b => b.jisCode == k).map fun b =>
            pattern2Pivot (uniqueList (d13.partyNames ++ d23.partyNames)) k
              (pattern2Compute (normalizeRow a 13))
              (pattern2Compute (normalizeRow b 23))) = [] := by
      rw [List.filterMap_eq_nil_iff]
      intro z hzmem
      rw [List.find?_eq_none.mpr ?_]
      · rfl
      · intro a ha
        simp only [beq_iff_eq]
        exact fun hk => hznot z hzmem (hk ▸ List.mem_map_of_mem (·.jisCode) ha)
    rw [hz, List.append_nil, List.filterMap_map]
    refine List.filterMap_congr ?_
    intro a ha
    rw [Function.comp_apply,
      find?_self_of_nodup d13.rows (·.jisCode) h.nodupKeys13 a ha]
    rfl

/-! ### Explicit forms of the two merged-record shapes -/

/-- The relative share a round's record carries for party `p` on `row`:
votes looked up in the row's mapping (0 when absent) over valid votes. -/
def shareOf (row : ElectionRow) (p : String) : ℚ :=
  computeRelativeShare ((jsGet row.parties p).getD 0) row.validVotes

/-- The six leading metadata/turnout cells every merged record starts with. -/
def mergedMeta (a b : ElectionRow) : Assoc Value :=
  [("pref_code", .str a.prefCode), ("pref_name", .str a.prefName),
   ("jis_code", .str a.jisCode), ("city_name", .str a.cityName),
   ("turnout_13", .num (computeTurnout a.ballots a.electorate)),
   ("turnout_23", .num (computeTurnout b.ballots b.electorate))]

theorem jsGet_mergedMeta_none (a b : ElectionRow) (c : String)
    (h : ∀ m ∈ metaColumns, c ≠ m) : jsGet (mergedMeta a b) c = none :=
  jsGet_metaBase_none _ _ _ _ _ _ _ h

theorem pattern2Compute_partyShares (row : ElectionRow) (n : ℕ)
    (hnd : (row.parties.map Prod.fst).Nodup) :
    (pattern2Compute (normalizeRow row n)).partyShares
      = row.parties.map fun pv => (pv.1, computeRelativeShare pv.2 row.validVotes) := by
  have h := foldl_jsSet_eq_append row.parties (fun pv => pv.1)
    (fun pv => computeRelativeShare pv.2 row.validVotes) [] (fun s _ => rfl) hnd
  simpa using h

theorem shareOf_eq_lookup (row : ElectionRow) (p : String) :
    ((jsGet row.parties p).map
        (fun v => computeRelativeShare v row.validVotes)).getD 0
      = shareOf row p := by
  cases h : jsGet row.parties p with
  | none => simp [shareOf, h, computeRelativeShare_zero_votes]
  | some v => simp [shareOf, h]

theorem shareOf_of_not_mem (row : ElectionRow) (p : String) (pn : List String)
    (hsub : ∀ pv ∈ row.parties, pv.1 ∈ pn) (hp : p ∉ pn) :
    shareOf row p = 0 := by
  have hget : jsGet row.parties p = none :=
    jsGet_of_forall_ne row.parties p
      (fun kv hkv hkp => hp (hkp ▸ hsub kv hkv))
  rw [shareOf, hget]
  simpa using computeRelativeShare_zero_votes row.validVotes

theorem map_fst_pairs (l : List String) (g : String → α) :
    l.map (Prod.fst ∘ fun p => (p, g p)) = l := by
  rw [show (Prod.fst ∘ fun p => (p, g p)) = fun p : String => p from rfl,
    List.map_id']

/-- Explicit form of a Topology A / C merged record: metadata, then the
round-13 share columns for the round-13 discovered parties, then the
round-23 share columns for the round-23 discovered parties. -/
theorem pattern1_row_explicit (pn13 pn23 : List String) (a b : ElectionRow)
    (hnd13 : pn13.Nodup) (hnd23 : pn23.Nodup)
    (ht13 : "turnout" ∉ pn13) (ht23 : "turnout" ∉ pn23) :
    pattern1Merge (processOne pn13 a) (processOne pn23 b)
      = mergedMeta a b
          ++ (pn13.map fun p => (makePartyColumn p 13, Value.num (shareOf a p)))
          ++ (pn23.map fun p => (makePartyColumn p 23, Value.num (shareOf b p))) := by
  rw [pattern1Merge_eq]
  · rw [processOne_partyShares _ hnd13, processOne_partyShares _ hnd23,
      List.map_map, List.map_map]
    rfl
  · rw [processOne_partyShares _ hnd13, List.map_map, map_fst_pairs]
    exact hnd13
  · rw [processOne_partyShares _ hnd23, List.map_map, map_fst_pairs]
    exact hnd23
  · rw [processOne_partyShares _ hnd13, List.map_map, map_fst_pairs]
    exact ht13
  · rw [processOne_partyShares _ hnd23, List.map_map, map_fst_pairs]
    exact ht23

/-- Explicit form of a Topology B merged record: metadata, then for every
union party both round columns interleaved, each carrying that row's share
(0 when the party is absent from the row). -/
theorem pattern2_row_explicit (pn13 pn23 : List String) (a b : ElectionRow)
    (hU : (uniqueList (pn13 ++ pn23)).Nodup)
    (hUt : "turnout" ∉ uniqueList (pn13 ++ pn23))
    (hpa : (a.parties.map Prod.fst).Nodup)
    (hpb : (b.parties.map Prod.fst).Nodup) :
    pattern2Pivot (uniqueList (pn13 ++ pn23)) a.jisCode
        (pattern2Compute (normalizeRow a 13)) (pattern2Compute (normalizeRow b 23))
      = mergedMeta a b
          ++ (uniqueList (pn13 ++ pn23)).flatMap fun p =>
              [(makePartyColumn p 13, Value.num (shareOf a p)),
               (makePartyColumn p 23, Value.num (shareOf b p))] := by
  have hfresh : ∀ p ∈ uniqueList (pn13 ++ pn23),
      jsGet (mergedMeta a b) (makePartyColumn p 13) = none
        ∧ jsGet (mergedMeta a b) (makePartyColumn p 23) = none := by
    intro p hp
    have hpt : p ≠ "turnout" := fun hpt => hUt (hpt ▸ hp)
    exact ⟨jsGet_mergedMeta_none _ _ _ (mk13_ne_meta hpt),
      jsGet_mergedMeta_none _ _ _ (mk23_ne_meta hpt)⟩
  have hstep : pattern2Pivot (uniqueList (pn13 ++ pn23)) a.jisCode
      (pattern2Compute (normalizeRow a 13)) (pattern2Compute (normalizeRow b 23))
      = mergedMeta a b ++ (uniqueList (pn13 ++ pn23)).flatMap fun p =>
          [(makePartyColumn p 13,
            Value.num ((jsGet (pattern2Compute (normalizeRow a 13)).partyShares p).getD 0)),
           (makePartyColumn p 23,
            Value.num ((jsGet (pattern2Compute (normalizeRow b 23)).partyShares p).getD 0))] :=
    foldl_jsSet2_eq_append (uniqueList (pn13 ++ pn23))
      (fun p => makePartyColumn p 13) (fun p => makePartyColumn p 23)
      (fun p => Value.num ((jsGet (pattern2Compute (normalizeRow a 13)).partyShares p).getD 0))
      (fun p => Value.num ((jsGet (pattern2Compute (normalizeRow b 23)).partyShares p).getD 0))
      (mergedMeta a b) hfresh (nodup_mkCol_pairs _ hU)
  rw [hstep]
  congr 1
  have hfun : ∀ p : String,
      (Value.num ((jsGet (pattern2Compute (normalizeRow a 13)).partyShares p).getD 0))
        = Value.num (shareOf a p) := by
    intro p
    rw [pattern2Compute_partyShares a 13 hpa,
      jsGet_map_snd a.parties (fun v => computeRelativeShare v a.validVotes) p,
      shareOf_eq_lookup]
  have hfun2 : ∀ p : String,
      (Value.num ((jsGet (pattern2Compute (normalizeRow b 23)).partyShares p).getD 0))
        = Value.num (shareOf b p) := by
    intro p
    rw [pattern2Compute_partyShares b 23 hpb,
      jsGet_map_snd b.parties (fun v => computeRelativeShare v b.validVotes) p,
      shareOf_eq_lookup]
  refine List.flatMap_congr ?_
  intro p _
  rw [hfun p, hfun2 p]

/-- Column-for-column relation between one Topology A record and the
Topology B record for the same pair of matched rows: B agrees with A on
every column A defines, and the columns only B defines all carry 0. -/
theorem row_columns_rel (pn13 pn23 : List String) (a b : ElectionRow)
    (hnd13 : pn13.Nodup) (hnd23 : pn23.Nodup)
    (ht13 : "turnout" ∉ pn13) (ht23 : "turnout" ∉ pn23)
    (hpa : (a.parties.map Prod.fst).Nodup) (hpb : (b.parties.map Prod.fst).Nodup)
    (hsa : ∀ pv ∈ a.parties, pv.1 ∈ pn13) (hsb : ∀ pv ∈ b.parties, pv.1 ∈ pn23) :
    ∀ col,
      jsGet (pattern2Pivot (uniqueList (pn13 ++ pn23)) a.jisCode
          (pattern2Compute (normalizeRow a 13))
          (pattern2Compute (normalizeRow b 23))) col
        = jsGet (pattern1Merge (processOne pn13 a) (processOne pn23 b)) col
      ∨ (jsGet (pattern1Merge (processOne pn13 a) (processOne pn23 b)) col = none
          ∧ jsGet (pattern2Pivot (uniqueList (pn13 ++ pn23)) a.jisCode
              (pattern2Compute (normalizeRow a 13))
              (pattern2Compute (normalizeRow b 23))) col = some (Value.num 0)) := by
  intro col
  have hU : (uniqueList (pn13 ++ pn23)).Nodup := uniqueList_nodup _
  have hUt : "turnout" ∉ uniqueList (pn13 ++ pn23) := by
    intro hmem
    rcases List.mem_append.mp ((mem_uniqueList _ _).mp hmem) with hm | hm
    · exact ht13 hm
    · exact ht23 hm
  have hmemU13 : ∀ q ∈ pn13, q ∈ uniqueList (pn13 ++ pn23) := fun q hq =>
    (mem_uniqueList _ _).mpr (List.mem_append.mpr (Or.inl hq))
  have hmemU23 : ∀ q ∈ pn23, q ∈ uniqueList (pn13 ++ pn23) := fun q hq =>
    (mem_uniqueList _ _).mpr (List.mem_append.mpr (Or.inr hq))
  rw [pattern1_row_explicit pn13 pn23 a b hnd13 hnd23 ht13 ht23,
    pattern2_row_explicit pn13 pn23 a b hU hUt hpa hpb,
    List.append_assoc, jsGet_append, jsGet_append, jsGet_append,
    jsGet_flatMap_pairs (uniqueList (pn13 ++ pn23))
      (fun p => Value.num (shareOf a p)) (fun p => Value.num (shareOf b p)) col]
  by_cases hc1 : ∃ p ∈ uniqueList (pn13 ++ pn23), makePartyColumn p 13 = col
  · obtain ⟨p, hpU, rfl⟩ := hc1
    have hpt : p ≠ "turnout" := fun hpt => hUt (hpt ▸ hpU)
    have hmeta : jsGet (mergedMeta a b) (makePartyColumn p 13) = none :=
      jsGet_mergedMeta_none _ _ _ (mk13_ne_meta hpt)
    have hU23 : jsGet ((uniqueList (pn13 ++ pn23)).map fun q =>
        (makePartyColumn q 23, Value.num (shareOf b q))) (makePartyColumn p 13)
        = none :=
      jsGet_map_of_forall_ne _ _ _ _ (fun q _ => (mk13_ne_mk23 p q).symm)
    have hL23 : jsGet (pn23.map fun q =>
        (makePartyColumn q 23, Value.num (shareOf b q))) (makePartyColumn p 13)
        = none :=
      jsGet_map_of_forall_ne _ _ _ _ (fun q _ => (mk13_ne_mk23 p q).symm)
    have hU13 : jsGet ((uniqueList (pn13 ++ pn23)).map fun q =>
        (makePartyColumn q 13, Value.num (shareOf a q))) (makePartyColumn p 13)
        = some (Value.num (shareOf a p)) :=
      jsGet_map_of_mem _ _ _ p hpU (fun q _ hq => mk13_inj hq)
    by_cases hp13 : p ∈ pn13
    · have hL13 : jsGet (pn13.map fun q =>
          (makePartyColumn q 13, Value.num (shareOf a q))) (makePartyColumn p 13)
          = some (Value.num (shareOf a p)) :=
        jsGet_map_of_mem _ _ _ p hp13 (fun q _ hq => mk13_inj hq)
      left
      simp [hmeta, hU13, hU23, hL13, hL23]
    · have hL13 : jsGet (pn13.map fun q =>
          (makePartyColumn q 13, Value.num (shareOf a q))) (makePartyColumn p 13)
          = none :=
        jsGet_map_of_forall_ne _ _ _ _ (fun q hq h => hp13 (mk13_inj h ▸ hq))
      have hshare0 : shareOf a p = 0 := shareOf_of_not_mem a p pn13 hsa hp13
      right
      constructor
      · simp [hmeta, hL13, hL23]
      · simp [hmeta, hU13, hU23, hshare0]
  · by_cases hc2 : ∃ p ∈ uniqueList (pn13 ++ pn23), makePartyColumn p 23 = col
    · obtain ⟨p, hpU, rfl⟩ := hc2
      have hpt : p ≠ "turnout" := fun hpt => hUt (hpt ▸ hpU)
      have hmeta : jsGet (mergedMeta a b) (makePartyColumn p 23) = none :=
        jsGet_mergedMeta_none _ _ _ (mk23_ne_meta hpt)
      have hU13 : jsGet ((uniqueList (pn13 ++ pn23)).map fun q =>
          (makePartyColumn q 13, Value.num (shareOf a q))) (makePartyColumn p 23)
          = none :=
        jsGet_map_of_forall_ne _ _ _ _ (fun q _ => mk13_ne_mk23 q p)
      have hL13 : jsGet (pn13.map fun q =>
          (makePartyColumn q 13, Value.num (shareOf a q))) (makePartyColumn p 23)
          = none :=
        jsGet_map_of_forall_ne _ _ _ _ (fun q _ => mk13_ne_mk23 q p)
      have hU23 : jsGet ((uniqueList (pn13 ++ pn23)).map fun q =>
          (makePartyColumn q 23, Value.num (shareOf b q))) (makePartyColumn p 23)
          = some (Value.num (shareOf b p)) :=
        jsGet_map_of_mem _ _ _ p hpU (fun q _ hq => mk23_inj hq)
      by_cases hp23 : p ∈ pn23
      · have hL23 : jsGet (pn23.map fun q =>
            (makePartyColumn q 23, Value.num (shareOf b q))) (makePartyColumn p 23)
            = some (Value.num (shareOf b p)) :=
          jsGet_map_of_mem _ _ _ p hp23 (fun q _ hq => mk23_inj hq)
        left
        simp [hmeta, hU13, hU23, hL13, hL23]
      · have hL23 : jsGet (pn23.map fun q =>
            (makePartyColumn q 23, Value.num (shareOf b q))) (makePartyColumn p 23)
            = none :=
          jsGet_map_of_forall_ne _ _ _ _ (fun q hq h => hp23 (mk23_inj h ▸ hq))
        have hshare0 : shareOf b p = 0 := shareOf_of_not_mem b p pn23 hsb hp23
        right
        constructor
        · simp [hmeta, hL13, hL23]
        · simp [hmeta, hU13, hU23, hshare0]
    · have hU13 : jsGet ((uniqueList (pn13 ++ pn23)).map fun q =>
          (makePartyColumn q 13, Value.num (shareOf a q))) col = none :=
        jsGet_map_of_forall_ne _ _ _ _ (fun q hq h => hc1 ⟨q, hq, h⟩)
      have hU23 : jsGet ((uniqueList (pn13 ++ pn23)).map fun q =>
          (makePartyColumn q 23, Value.num (shareOf b q))) col = none :=
        jsGet_map_of_forall_ne _ _ _ _ (fun q hq h => hc2 ⟨q, hq, h⟩)
      have hL13 : jsGet (pn13.map fun q =>
          (makePartyColumn q 13, Value.num (shareOf a q))) col = none :=
        jsGet_map_of_forall_ne _ _ _ _ (fun q hq h => hc1 ⟨q, hmemU13 q hq, h⟩)
      have hL23 : jsGet (pn23.map fun q =>
          (makePartyColumn q 23, Value.num (shareOf b q))) col = none :=
        jsGet_map_of_forall_ne _ _ _ _ (fun q hq h => hc2 ⟨q, hmemU23 q hq, h⟩)
      left
      simp [hU13, hU23, hL13, hL23]

/-! ### C1 — cross-topology equivalence -/

/-- C1 (amended): the three topologies emit identical headers; Topologies A
and C emit identical row lists; and Topology B's rows agree with A's row
for row and column for column on every column A's record defines, while the
columns that exist only in B's records (union categories absent from one
round's discovered list) all carry the value 0. -/
theorem C1_cross_topology_equivalence (d13 d23 : LoadResult)
    (h : WFInput d13 d23) :
    ((transformPattern1 d13 d23).header = (transformPattern2 d13 d23).header
      ∧ (transformPattern1 d13 d23).header = (transformPattern3 d13 d23).header)
    ∧ (transformPattern1 d13 d23).rows = (transformPattern3 d13 d23).rows
    ∧ List.Forall₂ (fun r1 r2 => ∀ col, jsGet r2 col = jsGet r1 col
          ∨ (jsGet r1 col = none ∧ jsGet r2 col = some (Value.num 0)))
        (transformPattern1 d13 d23).rows (transformPattern2 d13 d23).rows := by
  refine ⟨⟨rfl, rfl⟩, pattern1_rows_eq_pattern3 d13 d23 h, ?_⟩
  rw [pattern1_rows_eq d13 d23 h.nodupKeys23, pattern2_rows_eq d13 d23 h]
  refine forall₂_filterMap _ _ _ _ ?_
  intro a ha
  cases hfb : d23.rows.find? fun b => b.jisCode == a.jisCode with
  | none => exact Or.inl ⟨rfl, rfl⟩
  | some b =>
      refine Or.inr ⟨_, _, rfl, rfl, ?_⟩
      have hb : b ∈ d23.rows := List.mem_of_find?_eq_some hfb
      exact row_columns_rel d13.partyNames d23.partyNames a b
        h.nodupNames13 h.nodupNames23 h.turnoutFree13 h.turnoutFree23
        (h.partiesNodup13 a ha) (h.partiesNodup23 b hb)
        (h.partiesSub13 a ha) (h.partiesSub23 b hb)

/-- The C3 scenario input satisfies the loader's invariants. -/
theorem wfScenario : WFInput scenarioData13 scenarioData23 :=
  ⟨by decide, by decide, by decide, by decide, by decide, by decide,
    by decide, by decide, by decide, by decide⟩

/-- Witness for C1 at the concrete scenario input. -/
theorem C1_cross_topology_equivalence_witness :
    (transformPattern1 scenarioData13 scenarioData23).rows
      = (transformPattern3 scenarioData13 scenarioData23).rows :=
  (C1_cross_topology_equivalence scenarioData13 scenarioData23 wfScenario).2.1

/-! ### C2 — category-union completeness -/

theorem jsGet_merged_jis (pn13 pn23 : List String) (a b : ElectionRow)
    (hnd13 : pn13.Nodup) (hnd23 : pn23.Nodup)
    (ht13 : "turnout" ∉ pn13) (ht23 : "turnout" ∉ pn23) :
    jsGet (pattern1Merge (processOne pn13 a) (processOne pn23 b)) "jis_code"
      = some (Value.str a.jisCode) := by
  rw [pattern1_row_explicit pn13 pn23 a b hnd13 hnd23 ht13 ht23,
    List.append_assoc, jsGet_append,
    show jsGet (mergedMeta a b) "jis_code" = some (Value.str a.jisCode) from rfl]
  rfl

def unionRow13 : ElectionRow :=
  { prefCode := "28", prefName := "Hyogo", jisCode := "100", cityName := "Town",
    electorate := 100, ballots := 30, validVotes := 50,
    parties := [("X", 10), ("Y", 20)] }

def unionRow23 : ElectionRow :=
  { prefCode := "28", prefName := "Hyogo", jisCode := "100", cityName := "Town",
    electorate := 100, ballots := 20, validVotes := 40,
    parties := [("Y", 5), ("Z", 15)] }

def unionData13 : LoadResult := { rows := [unionRow13], partyNames := ["X", "Y"] }

def unionData23 : LoadResult := { rows := [unionRow23], partyNames := ["Y", "Z"] }

/-- C2 counterexample: with round-1 categories {X, Y} and round-2
categories {Y, Z}, Topology A's output record has no `X_23` column at all —
the claim's `X_round2 = 0` column does not exist there. -/
theorem C2_union_counterexample :
    jsGet ((transformPattern1 unionData13 unionData23).rows.headD []) "X_23"
      = none := by
  rfl

/-- C2 (amended): Topology B's records carry a column for every category of
the union in both rounds, 0 when the category is absent from that round's
list; Topologies A and C omit the round column of a category absent from
that round's discovered list (the header still names it). -/
theorem C2_category_union_completeness (d13 d23 : LoadResult)
    (h : WFInput d13 d23) :
    (∀ row ∈ (transformPattern2 d13 d23).rows,
      ∀ p ∈ uniqueList (d13.partyNames ++ d23.partyNames),
        (jsGet row (makePartyColumn p 13)).isSome
          ∧ (jsGet row (makePartyColumn p 23)).isSome
          ∧ (p ∉ d13.partyNames →
              jsGet row (makePartyColumn p 13) = some (Value.num 0))
          ∧ (p ∉ d23.partyNames →
              jsGet row (makePartyColumn p 23) = some (Value.num 0)))
    ∧ (∀ row ∈ (transformPattern1 d13 d23).rows, ∀ p ∈ d23.partyNames,
        p ∉ d13.partyNames → jsGet row (makePartyColumn p 13) = none) := by
  have hU : (uniqueList (d13.partyNames ++ d23.partyNames)).Nodup :=
    uniqueList_nodup _
  have hUt : "turnout" ∉ uniqueList (d13.partyNames ++ d23.partyNames) := by
    intro hmem
    rcases List.mem_append.mp ((mem_uniqueList _ _).mp hmem) with hm | hm
    · exact h.turnoutFree13 hm
    · exact h.turnoutFree23 hm
  constructor
  · intro row hrow p hp
    rw [pattern2_rows_eq d13 d23 h] at hrow
    obtain ⟨a, ha, hfa⟩ := List.mem_filterMap.mp hrow
    cases hfb : d23.rows.find? fun b => b.jisCode == a.jisCode with
    | none => rw [hfb] at hfa; cases hfa
    | some b =>
        rw [hfb] at hfa
        have hb : b ∈ d23.rows := List.mem_of_find?_eq_some hfb
        obtain rfl : pattern2Pivot (uniqueList (d13.partyNames ++ d23.partyNames))
            a.jisCode (pattern2Compute (normalizeRow a 13))
            (pattern2Compute (normalizeRow b 23)) = row := by
          simpa using hfa
        have hpt : p ≠ "turnout" := fun hpt => hUt (hpt ▸ hp)
        rw [pattern2_row_explicit d13.partyNames d23.partyNames a b hU hUt
          (h.partiesNodup13 a ha) (h.partiesNodup23 b hb)]
        have h13 : jsGet (mergedMeta a b
              ++ (uniqueList (d13.partyNames ++ d23.partyNames)).flatMap fun p =>
                [(makePartyColumn p 13, Value.num (shareOf a p)),
                 (makePartyColumn p 23, Value.num (shareOf b p))])
            (makePartyColumn p 13) = some (Value.num (shareOf a p)) := by
          rw [jsGet_append,
            jsGet_mergedMeta_none _ _ _ (mk13_ne_meta hpt),
            jsGet_flatMap_pairs (uniqueList (d13.partyNames ++ d23.partyNames))
              (fun p => Value.num (shareOf a p)) (fun p => Value.num (shareOf b p)),
            jsGet_map_of_mem _ _ _ p hp (fun q _ hq => mk13_inj hq)]
          rfl
        have h23 : jsGet (mergedMeta a b
              ++ (uniqueList (d13.partyNames ++ d23.partyNames)).flatMap fun p =>
                [(makePartyColumn p 13, Value.num (shareOf a p)),
                 (makePartyColumn p 23, Value.num (shareOf b p))])
            (makePartyColumn p 23) = some (Value.num (shareOf b p)) := by
          rw [jsGet_append,
            jsGet_mergedMeta_none _ _ _ (mk23_ne_meta hpt),
            jsGet_flatMap_pairs (uniqueList (d13.partyNames ++ d23.partyNames))
              (fun p => Value.num (shareOf a p)) (fun p => Value.num (shareOf b p)),
            jsGet_map_of_forall_ne _ _ _ _ (fun q _ => mk13_ne_mk23 q p),
            jsGet_map_of_mem _ _ _ p hp (fun q _ hq => mk23_inj hq)]
          rfl
        refine ⟨by rw [h13]; rfl, by rw [h23]; rfl, ?_, ?_⟩
        · intro hp13
          rw [h13, shareOf_of_not_mem a p d13.partyNames (h.partiesSub13 a ha) hp13]
        · intro hp23
          rw [h23, shareOf_of_not_mem b p d23.partyNames (h.partiesSub23 b hb) hp23]
  · intro row hrow p hp23 hp13
    rw [pattern1_rows_eq d13 d23 h.nodupKeys23] at hrow
    obtain ⟨a, ha, hfa⟩ := List.mem_filterMap.mp hrow
    cases hfb : d23.rows.find? fun b => b.jisCode == a.jisCode with
    | none => rw [hfb] at hfa; cases hfa
    | some b =>
        rw [hfb] at hfa
        have hb : b ∈ d23.rows := List.mem_of_find?_eq_some hfb
        obtain rfl : pattern1Merge (processOne d13.partyNames a)
            (processOne d23.partyNames b) = row := by
          simpa using hfa
        have hpt : p ≠ "turnout" := fun hpt => h.turnoutFree23 (hpt ▸ hp23)
        rw [pattern1_row_explicit d13.partyNames d23.partyNames a b
          h.nodupNames13 h.nodupNames23 h.turnoutFree13 h.turnoutFree23,
          List.append_assoc, jsGet_append, jsGet_append,
          jsGet_mergedMeta_none _ _ _ (mk13_ne_meta hpt),
          jsGet_map_of_forall_ne d13.partyNames (fun q => makePartyColumn q 13)
            (fun q => Value.num (shareOf a q)) (makePartyColumn p 13)
            (fun q hq h' => hp13 (mk13_inj h' ▸ hq)),
          jsGet_map_of_forall_ne _ _ _ _ (fun q _ => (mk13_ne_mk23 p q).symm)]
        rfl

/-- Witness for C2 at the scenario input: `R` is a round-23-only category,
so Topology B carries `R_13 = 0`. -/
theorem C2_category_union_completeness_witness :
    jsGet ((transformPattern2 scenarioData13 scenarioData23).rows.headD [])
      (makePartyColumn "R" 13) = some (Value.num 0) := by
  have hrow : (transformPattern2 scenarioData13 scenarioData23).rows.headD []
      ∈ (transformPattern2 scenarioData13 scenarioData23).rows := by
    rw [pattern2_scenario_rows]
    exact List.mem_cons_self _ _
  have h := (C2_category_union_completeness scenarioData13 scenarioData23
    wfScenario).1 _ hrow "R" (by decide)
  exact h.2.2.1 (by decide)

/-! ### C9 — duplicate keys in Topology C's base construction -/

def dupRowA : ElectionRow :=
  { prefCode := "28", prefName := "Hyogo", jisCode := "200", cityName := "Dup",
    electorate := 100, ballots := 50, validVotes := 40,
    parties := [("P", 10)] }

def dupRowB : ElectionRow :=
  { prefCode := "28", prefName := "Hyogo", jisCode := "200", cityName := "Dup",
    electorate := 100, ballots := 60, validVotes := 50,
    parties := [("P", 30)] }

def dupRowC : ElectionRow :=
  { prefCode := "28", prefName := "Hyogo", jisCode := "200", cityName := "Dup",
    electorate := 100, ballots := 70, validVotes := 60,
    parties := [("P", 20)] }

def dupData13 : LoadResult := { rows := [dupRowA, dupRowB], partyNames := ["P"] }

def dupData23 : LoadResult := { rows := [dupRowC], partyNames := ["P"] }

/-- C9 counterexample: with the same district key on two round-1 rows,
`createBaseTable` keeps both rows (no collapse), and Topology C's final
output contains two records for that one district key. -/
theorem C9_base_counterexample :
    (createBaseTable dupData13.rows 13).length = 2
      ∧ ((transformPattern3 dupData13 dupData23).rows.map fun r =>
          jsGet r "jis_code")
        = [some (Value.str "200"), some (Value.str "200")] := by
  constructor
  · rfl
  · rfl

/-- C9 (amended): Topology C's base construction is a plain per-row `map`
that never collapses duplicate keys; duplicate input keys therefore surface
as duplicate output records.  Under the per-round key-uniqueness invariant
of the input contract, the final output has exactly one record per district
key present in both rounds — none dropped, none duplicated. -/
theorem C9_base_no_collapse (d13 d23 : LoadResult) (h : WFInput d13 d23) :
    (∀ (rows : List ElectionRow) (n : ℕ),
      (createBaseTable rows n).length = rows.length)
    ∧ ((transformPattern3 d13 d23).rows.map fun r => jsGet r "jis_code")
        = ((d13.rows.map (·.jisCode)).filter
            (fun k => decide (k ∈ d23.rows.map (·.jisCode)))).map
          (fun k => some (Value.str k)) := by
  refine ⟨fun rows n => by rw [createBaseTable_eq_map]; simp, ?_⟩
  rw [pattern3_rows_eq d13 d23 h.nodupKeys13 h.nodupKeys23, List.map_filterMap]
  have step : ∀ a ∈ d13.rows,
      ((d23.rows.find? fun b => b.jisCode == a.jisCode).map fun b =>
          pattern1Merge (processOne d13.partyNames a)
            (processOne d23.partyNames b)).map (fun r => jsGet r "jis_code")
        = if decide (a.jisCode ∈ d23.rows.map (·.jisCode)) = true
            then some (some (Value.str a.jisCode)) else none := by
    intro a ha
    by_cases hmem : a.jisCode ∈ d23.rows.map (·.jisCode)
    · obtain ⟨b, hb, hkey⟩ := List.mem_map.mp hmem
      have hsome : (d23.rows.find? fun b => b.jisCode == a.jisCode).isSome := by
        rw [List.find?_isSome]
        exact ⟨b, hb, by simp [hkey]⟩
      obtain ⟨b', hb'⟩ := Option.isSome_iff_exists.mp hsome
      rw [hb', if_pos (by simpa using hmem)]
      simp only [Option.map_some']
      rw [jsGet_merged_jis d13.partyNames d23.partyNames a b'
        h.nodupNames13 h.nodupNames23 h.turnoutFree13 h.turnoutFree23]
    · rw [List.find?_eq_none.mpr ?_, if_neg (by simpa using hmem)]
      · rfl
      · intro b hb
        simp only [beq_iff_eq]
        exact fun hk => hmem (hk ▸ List.mem_map_of_mem (·.jisCode) hb)
  rw [List.filterMap_congr step,
    filterMap_guard_eq_map_filter d13.rows
      (fun a => decide (a.jisCode ∈ d23.rows.map (·.jisCode)))
      (fun a => some (Value.str a.jisCode)),
    List.filter_map, List.map_map]
  rfl

/-- Witness for C9 at the scenario input. -/
theorem C9_base_no_collapse_witness :
    ((transformPattern3 scenarioData13 scenarioData23).rows.map fun r =>
        jsGet r "jis_code") = [some (Value.str "001")] := by
  rw [(C9_base_no_collapse scenarioData13 scenarioData23 wfScenario).2]
  rfl

/-! ### Stage instrumentation — `DetailedTimer`
(`lib/metrics/detailedTracker.ts`)

`performance.now()` readings are explicit `now : ℚ` arguments; elapsed
milliseconds are `Math.round`ed to `ℤ`. -/

/-- `StorageMetrics` of `detailedTracker.ts`. -/
structure StorageMetrics where
  rawDataRows : ℚ
  resultDataRows : ℚ
  intermediateRows : ℚ
  dbWriteOps : ℚ
  dbReadOps : ℚ
  peakMemoryMB : ℚ
deriving DecidableEq, Repr

/-- A `Partial<StorageMetrics>` argument of `recordStorage`. -/
structure StorageUpdate where
  rawDataRows : Option ℚ
  resultDataRows : Option ℚ
  intermediateRows : Option ℚ
  dbWriteOps : Option ℚ
  dbReadOps : Option ℚ
  peakMemoryMB : Option ℚ
deriving DecidableEq, Repr

/-- The object-spread merge `{ ...this.storage, ...metrics }`. -/
def StorageMetrics.applyUpdate (s : StorageMetrics) (m : StorageUpdate) :
    StorageMetrics :=
  { rawDataRows := m.rawDataRows.getD s.rawDataRows
    resultDataRows := m.resultDataRows.getD s.resultDataRows
    intermediateRows := m.intermediateRows.getD s.intermediateRows
    dbWriteOps := m.dbWriteOps.getD s.dbWriteOps
    dbReadOps := m.dbReadOps.getD s.dbReadOps
    peakMemoryMB := m.peakMemoryMB.getD s.peakMemoryMB }

/-- `TimingSteps` of `detailedTracker.ts` (integral milliseconds). -/
structure TimingSteps where
  csvLoadMs : ℤ
  dbWriteRawMs : ℤ
  dbReadRawMs : ℤ
  computeMs : ℤ
  dbWriteResultMs : ℤ
  dbReadResultMs : ℤ
  csvWriteMs : ℤ
  totalMs : ℤ
deriving DecidableEq, Repr

/-- The `DetailedTimer` state: recorded step times, the current step start
(field initializer 0), the construction instant, and the storage counters. -/
structure DetailedTimer where
  stepTimes : Assoc ℤ
  currentStepStart : ℚ
  overallStart : ℚ
  storage : StorageMetrics
deriving DecidableEq, Repr

/-- The constructor: `overallStart = performance.now()`, everything else at
its field initializer. -/
def DetailedTimer.init (now : ℚ) : DetailedTimer :=
  { stepTimes := [], currentStepStart := 0, overallStart := now
    storage := ⟨0, 0, 0, 0, 0, 0⟩ }

def DetailedTimer.startStep (t : DetailedTimer) (now : ℚ) : DetailedTimer :=
  { t with currentStepStart := now }

def DetailedTimer.endStep (t : DetailedTimer) (stepName : String) (now : ℚ) :
    DetailedTimer :=
  { t with stepTimes :=
      jsSet t.stepTimes stepName (jsMathRound (now - t.currentStepStart)) }

def DetailedTimer.recordStorage (t : DetailedTimer) (metrics : StorageUpdate) :
    DetailedTimer :=
  { t with storage := t.storage.applyUpdate metrics }

def DetailedTimer.incrementWriteOps (t : DetailedTimer) (count : ℚ) :
    DetailedTimer :=
  { t with storage :=
      { t.storage with dbWriteOps := t.storage.dbWriteOps + count } }

def DetailedTimer.incrementReadOps (t : DetailedTimer) (count : ℚ) :
    DetailedTimer :=
  { t with storage :=
      { t.storage with dbReadOps := t.storage.dbReadOps + count } }

def DetailedTimer.recordIntermediateRows (t : DetailedTimer) (count : ℚ) :
    DetailedTimer :=
  { t with storage :=
      { t.storage with intermediateRows := t.storage.intermediateRows + count } }

def DetailedTimer.recordMemoryUsage (t : DetailedTimer)
    (arrayLength estimatedBytesPerRow : ℚ) : DetailedTimer :=
  let mb := arrayLength * estimatedBytesPerRow / (1024 * 1024)
  if mb > t.storage.peakMemoryMB then
    { t with storage :=
        { t.storage with peakMemoryMB := (jsMathRound (mb * 100) : ℚ) / 100 } }
  else t

/-- `getTimings`: each missing step reports as 0 (`|| 0`), `totalMs` is the
rounded time since construction. -/
def DetailedTimer.getTimings (t : DetailedTimer) (now : ℚ) : TimingSteps :=
  { csvLoadMs := (jsGet t.stepTimes "csvLoadMs").getD 0
    dbWriteRawMs := (jsGet t.stepTimes "dbWriteRawMs").getD 0
    dbReadRawMs := (jsGet t.stepTimes "dbReadRawMs").getD 0
    computeMs := (jsGet t.stepTimes "computeMs").getD 0
    dbWriteResultMs := (jsGet t.stepTimes "dbWriteResultMs").getD 0
    dbReadResultMs := (jsGet t.stepTimes "dbReadResultMs").getD 0
    csvWriteMs := (jsGet t.stepTimes "csvWriteMs").getD 0
    totalMs := jsMathRound (now - t.overallStart) }

def DetailedTimer.getStorageMetrics (t : DetailedTimer) : StorageMetrics :=
  t.storage

/-- One call against a `DetailedTimer` (the claim's call surface). -/
inductive TimerOp : Type
  | startStep (now : ℚ)
  | endStep (stepName : String) (now : ℚ)
  | incrementReadOps (count : ℚ)
  | incrementWriteOps (count : ℚ)
  | recordIntermediateRows (count : ℚ)
  | recordMemoryUsage (arrayLength estimatedBytesPerRow : ℚ)
  | recordStorage (metrics : StorageUpdate)
deriving DecidableEq

def DetailedTimer.applyOp (t : DetailedTimer) : TimerOp → DetailedTimer
  | .startStep now => t.startStep now
  | .endStep stepName now => t.endStep stepName now
  | .incrementReadOps count => t.incrementReadOps count
  | .incrementWriteOps count => t.incrementWriteOps count
  | .recordIntermediateRows count => t.recordIntermediateRows count
  | .recordMemoryUsage arrayLength estimatedBytesPerRow =>
      t.recordMemoryUsage arrayLength estimatedBytesPerRow
  | .recordStorage metrics => t.recordStorage metrics

def DetailedTimer.run (t : DetailedTimer) (ops : List TimerOp) : DetailedTimer :=
  ops.foldl DetailedTimer.applyOp t

/-- The call discipline every call site of the repository obeys: increments
with non-negative counts, and `recordStorage` touching only the
`rawDataRows` / `resultDataRows` fields. -/
def TimerOp.Benign : TimerOp → Prop
  | .incrementReadOps count => 0 ≤ count
  | .incrementWriteOps count => 0 ≤ count
  | .recordIntermediateRows count => 0 ≤ count
  | .recordStorage metrics => metrics.intermediateRows = none
      ∧ metrics.dbWriteOps = none ∧ metrics.dbReadOps = none
      ∧ metrics.peakMemoryMB = none
  | _ => True

/-- Order on the four counters named by the monotonicity claim. -/
def countersLE (s t : StorageMetrics) : Prop :=
  s.dbReadOps ≤ t.dbReadOps ∧ s.dbWriteOps ≤ t.dbWriteOps
    ∧ s.intermediateRows ≤ t.intermediateRows
    ∧ s.peakMemoryMB ≤ t.peakMemoryMB

/-- The invariant making the peak update monotone: the recorded peak is a
whole number of hundredths (as every `Math.round(mb*100)/100` result is). -/
def peakAligned (t : DetailedTimer) : Prop :=
  ∃ z : ℤ, t.storage.peakMemoryMB * 100 = z

theorem countersLE_refl (s : StorageMetrics) : countersLE s s :=
  ⟨le_refl _, le_refl _, le_refl _, le_refl _⟩

theorem countersLE_trans {s t u : StorageMetrics}
    (h1 : countersLE s t) (h2 : countersLE t u) : countersLE s u :=
  ⟨h1.1.trans h2.1, h1.2.1.trans h2.2.1, h1.2.2.1.trans h2.2.2.1,
    h1.2.2.2.trans h2.2.2.2⟩

theorem applyOp_mono (t : DetailedTimer) (op : TimerOp) (hop : op.Benign)
    (hp : peakAligned t) :
    countersLE t.storage (t.applyOp op).storage ∧ peakAligned (t.applyOp op) := by
  cases op with
  | startStep now => exact ⟨countersLE_refl _, hp⟩
  | endStep stepName now => exact ⟨countersLE_refl _, hp⟩
  | incrementReadOps count =>
      exact ⟨⟨le_add_of_nonneg_right hop, le_refl _, le_refl _, le_refl _⟩, hp⟩
  | incrementWriteOps count =>
      exact ⟨⟨le_refl _, le_add_of_nonneg_right hop, le_refl _, le_refl _⟩, hp⟩
  | recordIntermediateRows count =>
      exact ⟨⟨le_refl _, le_refl _, le_add_of_nonneg_right hop, le_refl _⟩, hp⟩
  | recordStorage metrics =>
      obtain ⟨h1, h2, h3, h4⟩ := hop
      constructor
      · refine ⟨?_, ?_, ?_, ?_⟩ <;>
          simp [DetailedTimer.applyOp, DetailedTimer.recordStorage,
            StorageMetrics.applyUpdate, h1, h2, h3, h4]
      · obtain ⟨z, hz⟩ := hp
        exact ⟨z, by
          simpa [DetailedTimer.applyOp, DetailedTimer.recordStorage,
            StorageMetrics.applyUpdate, h4] using hz⟩
  | recordMemoryUsage arrayLength estimatedBytesPerRow =>
      by_cases hmb : arrayLength * estimatedBytesPerRow / (1024 * 1024)
          > t.storage.peakMemoryMB
      · obtain ⟨z, hz⟩ := hp
        have happly : (t.applyOp
            (.recordMemoryUsage arrayLength estimatedBytesPerRow)).storage
            = { t.storage with peakMemoryMB :=
                (jsMathRound (arrayLength * estimatedBytesPerRow
                  / (1024 * 1024) * 100) : ℚ) / 100 } := by
          simp only [DetailedTimer.applyOp, DetailedTimer.recordMemoryUsage,
            if_pos hmb]
        have hle : t.storage.peakMemoryMB
            ≤ (jsMathRound (arrayLength * estimatedBytesPerRow
                  / (1024 * 1024) * 100) : ℚ) / 100 := by
          rw [jsMathRound_eq_floor]
          have hz100 : (z : ℚ)
              < arrayLength * estimatedBytesPerRow / (1024 * 1024) * 100 := by
            rw [← hz]
            have h100 : (0 : ℚ) < 100 := by norm_num
            exact (mul_lt_mul_right h100).mpr hmb
          have hfloor : z ≤ ⌊arrayLength * estimatedBytesPerRow
              / (1024 * 1024) * 100 + 1/2⌋ :=
            Int.le_floor.mpr (le_of_lt (lt_of_lt_of_le hz100 (by linarith)))
          have : (z : ℚ) ≤ (⌊arrayLength * estimatedBytesPerRow
              / (1024 * 1024) * 100 + 1/2⌋ : ℚ) := by exact_mod_cast hfloor
          have hdiv : (z : ℚ) / 100 ≤ (⌊arrayLength * estimatedBytesPerRow
              / (1024 * 1024) * 100 + 1/2⌋ : ℚ) / 100 := by
            exact (div_le_div_iff_of_pos_right (show (0:ℚ) < 100 by norm_num)).mpr this
          calc t.storage.peakMemoryMB = (z : ℚ) / 100 := by
                field_simp at hz ⊢
                linarith [hz]
            _ ≤ _ := hdiv
        constructor
        · rw [happly]
          exact ⟨le_refl _, le_refl _, le_refl _, hle⟩
        · refine ⟨jsMathRound (arrayLength * estimatedBytesPerRow
              / (1024 * 1024) * 100), ?_⟩
          rw [happly]
          field_simp
      · have happly : (t.applyOp
            (.recordMemoryUsage arrayLength estimatedBytesPerRow)) = t := by
          simp only [DetailedTimer.applyOp, DetailedTimer.recordMemoryUsage,
            if_neg hmb]
        rw [happly]
        exact ⟨countersLE_refl _, hp⟩

theorem run_mono (ops : List TimerOp) :
    ∀ t : DetailedTimer, (∀ op ∈ ops, op.Benign) → peakAligned t →
      countersLE t.storage (t.run ops).storage ∧ peakAligned (t.run ops) := by
  induction ops with
  | nil => exact fun t _ hp => ⟨countersLE_refl _, hp⟩
  | cons op rest ih =>
      intro t hops hp
      obtain ⟨h1, h2⟩ := applyOp_mono t op (hops op (List.mem_cons_self _ _)) hp
      obtain ⟨h3, h4⟩ := ih (t.applyOp op)
        (fun o ho => hops o (List.mem_cons_of_mem _ ho)) h2
      exact ⟨countersLE_trans h1 h3, h4⟩

theorem run_overallStart (ops : List TimerOp) :
    ∀ t : DetailedTimer, (t.run ops).overallStart = t.overallStart := by
  induction ops with
  | nil => intro t; rfl
  | cons op rest ih =>
      intro t
      have h : (t.applyOp op).overallStart = t.overallStart := by
        cases op <;>
          first
          | rfl
          | (simp only [DetailedTimer.applyOp, DetailedTimer.recordMemoryUsage]
             split <;> rfl)
      rw [DetailedTimer.run, List.foldl_cons, ← DetailedTimer.run, ih, h]

theorem run_stepTimes_of_not_ended (name : String) (ops : List TimerOp)
    (h : ∀ (n : ℚ), TimerOp.endStep name n ∉ ops) :
    ∀ t : DetailedTimer,
      jsGet (t.run ops).stepTimes name = jsGet t.stepTimes name := by
  induction ops with
  | nil => intro t; rfl
  | cons op rest ih =>
      intro t
      have hrest : ∀ (n : ℚ), TimerOp.endStep name n ∉ rest :=
        fun n hn => h n (List.mem_cons_of_mem _ hn)
      have hstep : jsGet (t.applyOp op).stepTimes name = jsGet t.stepTimes name := by
        cases op with
        | endStep s n =>
            have hne : s ≠ name := by
              intro hsn
              exact h n (by rw [← hsn]; exact List.mem_cons_self _ _)
            simp only [DetailedTimer.applyOp, DetailedTimer.endStep]
            rw [jsGet_jsSet, if_neg hne]
        | recordMemoryUsage a b =>
            simp only [DetailedTimer.applyOp, DetailedTimer.recordMemoryUsage]
            split <;> rfl
        | startStep now => rfl
        | incrementReadOps c => rfl
        | incrementWriteOps c => rfl
        | recordIntermediateRows c => rfl
        | recordStorage m => rfl
      rw [DetailedTimer.run, List.foldl_cons, ← DetailedTimer.run, ih hrest, hstep]

/-- C7's counterexample sequence: a benign-looking mixed call sequence, as a
run of the application would issue. -/
def demoOps : List TimerOp :=
  [.startStep 1, .incrementReadOps 2, .incrementWriteOps 3,
   .recordIntermediateRows 4, .recordMemoryUsage 2048 1024,
   .recordStorage ⟨some 10, some 20, none, none, none, none⟩,
   .endStep "computeMs" 9]

/-- C7 (counterexample): both halves of the claim fail on the code.
`recordStorage` spreads its argument over the whole accumulator, so a call
carrying `dbWriteOps: 0` strictly decreases a counter that
`incrementWriteOps` had raised to 5; and `endStep` has no started-step
guard: ended without any `startStep`, it happily records
`Math.round(now - 0)` under the step name. -/
theorem C7_instrumentation_counterexample :
    (((DetailedTimer.init 0).incrementWriteOps 5).recordStorage
        ⟨none, none, none, some 0, none, none⟩).storage.dbWriteOps
      < ((DetailedTimer.init 0).incrementWriteOps 5).storage.dbWriteOps
    ∧ ((DetailedTimer.init 0).endStep "computeMs" 7).stepTimes
        = [("computeMs", jsMathRound 7)] := by
  constructor
  · simp [DetailedTimer.init, DetailedTimer.incrementWriteOps,
      DetailedTimer.recordStorage, StorageMetrics.applyUpdate]
  · simp [DetailedTimer.init, DetailedTimer.endStep, jsSet]

/-- C7 (amended): under the call discipline the repository actually uses
(`TimerOp.Benign`: non-negative increment counts, `recordStorage` touching
only the row-count fields it is called with), the four counters are
non-decreasing over the run's lifetime — every prefix of the call sequence
leaves each counter at most its final value. The second conjunct replaces
the claim's `endStep`-guard clause with what the code does: `endStep` on a
fresh timer (no `startStep` ever) still records
`Math.round(now - 0)` for the step. -/
theorem C7_instrumentation_monotonicity (t0 : ℚ) (ops : List TimerOp) (i : ℕ)
    (hops : ∀ op ∈ ops, op.Benign) :
    countersLE ((DetailedTimer.init t0).run (ops.take i)).storage
        ((DetailedTimer.init t0).run ops).storage
    ∧ ∀ (stepName : String) (now : ℚ),
        ((DetailedTimer.init t0).endStep stepName now).stepTimes
          = [(stepName, jsMathRound now)] := by
  constructor
  · have hinit : peakAligned (DetailedTimer.init t0) :=
      ⟨0, by simp [DetailedTimer.init]⟩
    have h1 := run_mono (ops.take i) (DetailedTimer.init t0)
      (fun op ho => hops op (List.take_subset _ _ ho)) hinit
    have h2 := run_mono (ops.drop i) ((DetailedTimer.init t0).run (ops.take i))
      (fun op ho => hops op (List.drop_subset _ _ ho)) h1.2
    have hsplit : (DetailedTimer.init t0).run ops
        = (((DetailedTimer.init t0).run (ops.take i)).run (ops.drop i)) := by
      rw [DetailedTimer.run, DetailedTimer.run, DetailedTimer.run,
        ← List.foldl_append, List.take_append_drop]
    rw [hsplit]
    exact h2.1
  · intro stepName now
    simp [DetailedTimer.init, DetailedTimer.endStep, jsSet]

theorem C7_instrumentation_monotonicity_witness :
    countersLE ((DetailedTimer.init 0).run (demoOps.take 3)).storage
        ((DetailedTimer.init 0).run demoOps).storage :=
  (C7_instrumentation_monotonicity 0 demoOps 3 (by
    intro op hop
    fin_cases hop <;> simp [TimerOp.Benign])).1

/-- The step of `TimingSteps` a `keyof TimingSteps` name denotes (glue for
quantifying over step names; unknown names read 0). -/
def stepOf (ts : TimingSteps) (name : String) : ℤ :=
  if name = "csvLoadMs" then ts.csvLoadMs
  else if name = "dbWriteRawMs" then ts.dbWriteRawMs
  else if name = "dbReadRawMs" then ts.dbReadRawMs
  else if name = "computeMs" then ts.computeMs
  else if name = "dbWriteResultMs" then ts.dbWriteResultMs
  else if name = "dbReadResultMs" then ts.dbReadResultMs
  else if name = "csvWriteMs" then ts.csvWriteMs
  else 0

/-- C10: on a timer built at `t0` and driven by any call sequence that never
calls `endStep` with a given step name, `getTimings` reports 0 ms for that
step (the `|| 0` defaults), and `totalMs` is the rounded time elapsed since
construction. -/
theorem C10_missing_step_defaults (t0 now : ℚ) (ops : List TimerOp)
    (name : String) (hname : ∀ (n : ℚ), TimerOp.endStep name n ∉ ops) :
    stepOf (((DetailedTimer.init t0).run ops).getTimings now) name = 0
    ∧ (((DetailedTimer.init t0).run ops).getTimings now).totalMs
        = jsMathRound (now - t0) := by
  have hst := run_stepTimes_of_not_ended name ops hname (DetailedTimer.init t0)
  have hnone : jsGet ((DetailedTimer.init t0).run ops).stepTimes name = none := by
    rw [hst]; rfl
  constructor
  · unfold stepOf
    split_ifs with h1 h2 h3 h4 h5 h6 h7
    · rw [h1] at hnone
      simp [DetailedTimer.getTimings, hnone]
    · rw [h2] at hnone
      simp [DetailedTimer.getTimings, hnone]
    · rw [h3] at hnone
      simp [DetailedTimer.getTimings, hnone]
    · rw [h4] at hnone
      simp [DetailedTimer.getTimings, hnone]
    · rw [h5] at hnone
      simp [DetailedTimer.getTimings, hnone]
    · rw [h6] at hnone
      simp [DetailedTimer.getTimings, hnone]
    · rw [h7] at hnone
      simp [DetailedTimer.getTimings, hnone]
    · rfl
  · simp [DetailedTimer.getTimings, run_overallStart, DetailedTimer.init]

theorem C10_missing_step_defaults_witness :
    stepOf (((DetailedTimer.init 0).run demoOps).getTimings 20) "csvLoadMs" = 0
    ∧ (((DetailedTimer.init 0).run demoOps).getTimings 20).totalMs
        = jsMathRound (20 - 0) :=
  C10_missing_step_defaults 0 20 demoOps "csvLoadMs" (by
    intro n hmem
    simp [demoOps] at hmem)

/-! ### CSV output — `generateCsv` (`lib/output/writer.ts`) and
`convertToCSV` (`lib/transform/pattern3.ts`, DB variant)

Number-to-text conversions are modeled on the value domain the pipeline
emits: every numeric cell is an exact multiple of `1/10^4` (a `round _ 4` /
`computeTurnout` / `computeRelativeShare` result or a literal 0), and for
the doubles representing such values JS `Number.prototype.toString`
prints the minimal decimal form — integer part, then the fractional
digits with trailing zeros removed, no fractional part at all when it is
zero — which is what `jsNumToString` produces. `toFixed(4)` (per the
ECMAScript algorithm: sign, then the integer nearest `|x|·10^4`, ties
upward) always keeps exactly 4 fractional digits. -/

def digitChar (d : ℕ) : Char := Char.ofNat (48 + d)

/-- Decimal digits of a natural number, most significant first
(fuel-based; `fuel = n + 1` always suffices). -/
def natDigitsAux : ℕ → ℕ → List Char
  | 0, _ => []
  | fuel + 1, n =>
      if n < 10 then [digitChar n]
      else natDigitsAux fuel (n / 10) ++ [digitChar (n % 10)]

def natToString (n : ℕ) : String := String.mk (natDigitsAux (n + 1) n)

/-- Exactly four decimal digits of `m % 10^4`, most significant first. -/
def fourDigitString (m : ℕ) : String :=
  String.mk [digitChar (m / 1000 % 10), digitChar (m / 100 % 10),
    digitChar (m / 10 % 10), digitChar (m % 10)]

/-- `x.toFixed(4)` for `x` a multiple of `1/10^4`. -/
def toFixed4 (q : ℚ) : String :=
  (if q < 0 then "-" else "")
    ++ natToString ((jsMathRound ((if q < 0 then -q else q) * 10 ^ 4)).toNat
        / 10 ^ 4)
    ++ "." ++ fourDigitString ((jsMathRound ((if q < 0 then -q else q)
        * 10 ^ 4)).toNat % 10 ^ 4)

/-- `x.toString()` for `x` a multiple of `1/10^4`: minimal decimal form
(trailing fractional zeros dropped, `"."` omitted when nothing remains). -/
def jsNumToString (q : ℚ) : String :=
  let s := if q < 0 then "-" else ""
  let m := (jsMathRound ((if q < 0 then -q else q) * 10 ^ 4)).toNat
  let frac := ((fourDigitString (m % 10 ^ 4)).data.reverse.dropWhile
    (fun c => c = '0')).reverse
  if frac = [] then s ++ natToString (m / 10 ^ 4)
  else s ++ natToString (m / 10 ^ 4) ++ "." ++ String.mk frac

/-- The string branch of `generateCsv`: quote and double the quotes when
the cell holds a comma, quote or newline. -/
def csvEscape (s : String) : String :=
  if s.contains ',' || s.contains '"' || s.contains '\n' then
    "\"" ++ s.replace "\"" "\"\"" ++ "\""
  else s

/-- One cell of `generateCsv`: `undefined`/`""` become the empty cell,
numbers print via `toString`, strings are CSV-escaped. (`writeCsv` replaces
missing keys by `""` before calling `generateCsv`; both end at `""`.) -/
def csvCell : Option Value → String
  | none => ""
  | some (Value.str s) => if s = "" then "" else csvEscape s
  | some (Value.num q) => jsNumToString q

/-- `generateCsv` of `writer.ts`: header line, then one comma-joined line
per row, cells in header order. -/
def generateCsv (header : List String) (rows : List (Assoc Value)) : String :=
  String.intercalate "\n"
    (String.intercalate "," header
      :: rows.map (fun row =>
        String.intercalate "," (header.map (fun col => csvCell (jsGet row col)))))

/-- `FinalResult` of `pattern3.ts` (DB variant). -/
structure FinalResult where
  jisCode : String
  prefCode : String
  prefName : String
  cityName : String
  turnout13 : ℚ
  turnout23 : ℚ
  partyShares13 : Assoc ℚ
  partyShares23 : Assoc ℚ

/-- One data row of `convertToCSV`: meta columns, then `toFixed(4)` of the
two turnouts and of every `share || 0` over the party union. -/
def convertToCSVRow (allParties : List String) (r : FinalResult) :
    List String :=
  [r.prefCode, r.prefName, r.jisCode, r.cityName,
    toFixed4 r.turnout13, toFixed4 r.turnout23]
    ++ allParties.flatMap (fun party =>
      [toFixed4 ((jsGet r.partyShares13 party).getD 0),
        toFixed4 ((jsGet r.partyShares23 party).getD 0)])

/-- `convertToCSV` of `pattern3.ts` (DB variant). -/
def convertToCSV (results : List FinalResult)
    (parties13 parties23 : List String) : String :=
  let allParties := uniqueList (parties13 ++ parties23)
  let header := ["pref_code", "pref_name", "jis_code", "city_name",
      "turnout_13", "turnout_23"]
    ++ allParties.flatMap (fun party =>
      [makePartyColumn party 13, makePartyColumn party 23])
  String.intercalate "\n"
    (String.intercalate "," header
      :: results.map (fun r => String.intercalate "," (convertToCSVRow allParties r)))

theorem digitChar_isDigit (d : ℕ) (h : d < 10) :
    (digitChar d).isDigit = true := by
  interval_cases d <;> rfl

theorem toFixed4_shape (q : ℚ) :
    ∃ pre digs : String, toFixed4 q = pre ++ "." ++ digs
      ∧ digs.data.length = 4 ∧ ∀ c ∈ digs.data, c.isDigit = true := by
  refine ⟨(if q < 0 then "-" else "")
      ++ natToString ((jsMathRound ((if q < 0 then -q else q) * 10 ^ 4)).toNat
          / 10 ^ 4),
    fourDigitString ((jsMathRound ((if q < 0 then -q else q)
          * 10 ^ 4)).toNat % 10 ^ 4), rfl, rfl, ?_⟩
  intro c hc
  simp only [fourDigitString, String.data, List.mem_cons, List.not_mem_nil,
    or_false] at hc
  rcases hc with h | h | h | h <;>
    exact h ▸ digitChar_isDigit _ (Nat.mod_lt _ (by norm_num))

/-- C8 (counterexample): the in-memory patterns emit through
`writeCsv`/`generateCsv`, which serializes numbers with `toString` — a
turnout of 0.6 prints as "0.6", not "0.6000". -/
theorem C8_serialization_counterexample :
    generateCsv ["turnout_13"] [[("turnout_13", Value.num (3/5))]]
        = "turnout_13" ++ "\n" ++ "0.6"
    ∧ ("0.6" : String) ≠ "0.6000" := by
  have hm : jsMathRound ((3/5 : ℚ) * 10 ^ 4) = 6000 :=
    jsMathRound_eq_of _ 6000 (by norm_num) (by norm_num)
  have hneg : ¬((3/5 : ℚ) < 0) := by norm_num
  have hcell : jsNumToString ((3 : ℚ)/5) = "0.6" := by
    simp only [jsNumToString, hneg, if_false, hm]
    decide
  constructor
  · simp only [generateCsv, csvCell, jsGet, List.map_cons, List.map_nil,
      if_pos rfl, if_true, ite_true, hcell]
    decide
  · decide

/-- A concrete `FinalResult` to exercise `convertToCSVRow` on. -/
def demoResult : FinalResult :=
  ⟨"01100", "01", "Hokkaido", "Sapporo", 1/2, 13/20,
    [("P", 5172/10000)], [("P", 0)]⟩

/-- C8 (amended): exactly-4-decimal serialization holds for the DB-variant
pattern 3 output (`convertToCSV`), whose rows go through `toFixed(4)`:
every numeric cell (the cells after the four meta columns) is
`pre ++ "." ++ digs` with `digs` exactly 4 decimal digits. It does NOT
hold for the `generateCsv` path the in-memory patterns use (see the
counterexample): there 0.6 prints as "0.6". -/
theorem C8_four_decimal_places (allParties : List String) (r : FinalResult)
    (cell : String)
    (hc : cell ∈ (convertToCSVRow allParties r).drop 4) :
    ∃ pre digs : String, cell = pre ++ "." ++ digs
      ∧ digs.data.length = 4 ∧ ∀ c ∈ digs.data, c.isDigit = true := by
  simp only [convertToCSVRow, List.cons_append, List.nil_append,
    List.drop_succ_cons, List.drop_zero, List.mem_cons, List.mem_flatMap,
    List.not_mem_nil, or_false] at hc
  rcases hc with h | h | ⟨party, hparty, h | h⟩
  · exact h ▸ toFixed4_shape _
  · exact h ▸ toFixed4_shape _
  · exact h ▸ toFixed4_shape _
  · exact h ▸ toFixed4_shape _

theorem C8_four_decimal_places_witness :
    ∃ pre digs : String, toFixed4 ((1 : ℚ)/2) = pre ++ "." ++ digs
      ∧ digs.data.length = 4 ∧ ∀ c ∈ digs.data, c.isDigit = true :=
  C8_four_decimal_places ["P"] demoResult (toFixed4 ((1 : ℚ)/2))
    (by simp [convertToCSVRow, demoResult])

end KUDataFlow
